import Mathlib

/-!
Shallow embedding of the go-ch347 host-side protocol engine (package ch347:
ch347.go, uart.go, spi.go, i2c.go) and verification of its specification.

Bytes are modelled as `Nat`, reduced mod 256 exactly where the Go code casts
to `byte`.  Go `int` counters that can transiently go negative (the I2C
`toRead` counter) are modelled as `Int`.  The transport is modelled as
error-free and all-acknowledging: `Dev.Write` always succeeds, `Dev.Read`
fills the requested buffer, write acknowledgements are nonzero and the
read-request acknowledgement is 0x01; run models record the frames written
and the sizes of the reads performed.
-/

set_option maxRecDepth 100000

namespace CH347

/-- `maxPacketLen` from ch347.go: CH347 receives and sends 512-byte packets. -/
def maxPacketLen : Nat := 512

/-! ## UART codec (uart.go) -/

/-- The per-read frame capacity of `UART.Read` (uart.go 50-55):
    at most 510 payload bytes are requested per read. -/
def uartReadPlen (blen : Nat) : Nat := min blen 510

/-- `UART.Read` (uart.go 49-74) applied to the raw frame `p` delivered by the
    transport (the code allocates `p` of length `uartReadPlen blen + 2`).
    Returns `(n, copied)`: the count returned to the caller and the number of
    payload bytes actually copied (`copy(b[:n], p[2:])` moves
    `min n (p.length - 2)` bytes). -/
def uartRead (blen : Nat) (p : List Nat) : Nat × Nat :=
  let n := ((p.getD 1 0) <<< 8) ||| p.getD 0 0
  let n := if n > blen then blen else n
  (n, min n (p.length - 2))

/-- The chunking loop of `UART.Write` (uart.go 89-109): each chunk is sent as
    its own length-prefixed frame of at most `plen` payload bytes.  Returns
    the list of frames written, in order.  Fuel-indexed; every iteration
    advances `pos` by at least one byte, so `b.length` fuel suffices. -/
def uartWriteGo (b : List Nat) (plen : Nat) : Nat → Nat → List (List Nat)
  | 0, _ => []
  | fuel+1, pos =>
    if pos < b.length then
      let dlen := min (b.length - pos) plen
      ([dlen % 256, dlen / 256 % 256] ++ (b.drop pos).take dlen) ::
        uartWriteGo b plen fuel (pos + dlen)
    else []

/-- `UART.Write` (uart.go 77-112): the frames emitted for buffer `b`. -/
def uartWriteFrames (b : List Nat) : List (List Nat) :=
  uartWriteGo b (min b.length 510) (b.length + 1) 0

/-! ## GPIO codec (uart.go, WritePin / ReadPin) -/

inductive PinErr
  | badResponse
  | stateMismatch
deriving DecidableEq, Repr

/-- The 13-byte frame `WritePin` sends (uart.go 181-193): all pin slots zero
    except the target pin byte at offset `5 + pin`. -/
def writePinFrame (pin : Nat) (output level : Bool) : List Nat :=
  let base := [0x0b, 0x00, 0xcc, 0x08, 0x00, 0, 0, 0, 0, 0, 0, 0, 0]
  base.set (5 + pin) (if output then (if level then 0xf8 else 0xf0) else 0xc0)

/-- The pin-state confirmation of `WritePin` (uart.go 219-233) applied to the
    echoed byte of the target pin; `true` means no mismatch.  For output the
    code errors iff `b AND mask = 0` with `mask = 0x80` plus `0x40` when the
    level is high; for input it errors iff bit 7 is still set. -/
def writePinCheck (output level : Bool) (b : Nat) : Bool :=
  if output then
    let mask := 0x80 ||| (if level then 0x40 else 0)
    b &&& mask != 0
  else
    b &&& 0x80 == 0

/-- `WritePin` response handling (uart.go 200-235) applied to the echoed
    13-byte status frame. -/
def writePin (pin : Nat) (output level : Bool) (echo : List Nat) : Option PinErr :=
  if echo.getD 0 0 != 0x0b || echo.getD 2 0 != 0xcc then some .badResponse
  else if writePinCheck output level (echo.getD (5 + pin) 0) then none
  else some .stateMismatch

/-- The pin-level decoding of `ReadPin` (uart.go 272-284): bit 7 set means the
    pin is an output whose level is bit 6; bit 7 clear means the pin is an
    input whose reported level is the negation of bit 6. -/
def readPinDecode (b : Nat) : Bool :=
  if b &&& 0x80 != 0 then
    if b &&& 0x40 != 0 then true else false
  else
    if b &&& 0x40 != 0 then false else true

/-- `ReadPin` response handling (uart.go 254-285) applied to the echoed
    13-byte status frame: header check, then decode of the byte at
    offset `5 + pin`. -/
def readPin (pin : Nat) (echo : List Nat) : Option Bool :=
  if echo.getD 0 0 != 0x0b || echo.getD 2 0 != 0xcc then none
  else some (readPinDecode (echo.getD (5 + pin) 0))

/-! ## SPI codec, configuration (spi.go, SetSPI) -/

/-- The configuration frame `SetSPI` writes (spi.go 53-122).  The Go switch on
    the mode has no default case, so a mode outside 0-3 appends nothing. -/
def setSPIFrame (mode clock byteOrder : Nat) : List Nat :=
  [0x1d, 0x00] ++
  [0xc0, 0x1a, 0x00, 0x00, 0x00, 0x04, 0x01, 0x00, 0x00] ++
  (match mode with
   | 0 => [0x00, 0x00, 0x00, 0x00]
   | 1 => [0x00, 0x00, 0x01, 0x00]
   | 2 => [0x02, 0x00, 0x00, 0x00]
   | 3 => [0x02, 0x00, 0x01, 0x00]
   | _ => []) ++
  [0x00, 0x02] ++
  [(clock <<< 3) % 256] ++
  [0x00] ++
  [((byteOrder % 256) <<< 7) % 256] ++
  [0x00, 0x07, 0x00] ++
  [0x00, 0x00] ++
  [0xff] ++
  [0x00] ++
  [0x00, 0x00, 0x00, 0x00]

/-- The acknowledgement check of `SetSPI` (spi.go 137-140) on bytes 2 and 3 of
    the 6-byte reply; `true` means the reply is accepted.  The Go code
    rejects only when byte 2 differs from 0xc0 AND byte 3 differs from 0x01. -/
def setSPIAckOk (p2 p3 : Nat) : Bool := !(p2 != 0xc0 && p3 != 0x01)

/-- The per-packet acknowledgement check of the SPI write path
    (spi.go 186-192), same AND shape as `setSPIAckOk`. -/
def spiAckOk (p2 p3 : Nat) : Bool := !(p2 != 0xc4 && p3 != 0x01)

/-! ## I2C response processing (i2c.go 106-138) -/

inductive I2CErr
  | writeNak
  | readNak
deriving DecidableEq, Repr

/-- The write-acknowledgement loop of the I2C response processing
    (i2c.go 109-119): consume `toWrite` bytes starting at `pos`; a 0x00 byte
    aborts with ErrI2CWrite.  Returns the position after the write ACKs. -/
def i2cConfirmWrites (p : List Nat) : Nat → Nat → Except I2CErr Nat
  | pos, 0 => .ok pos
  | pos, tw+1 =>
    if p.getD pos 0 = 0 then .error .writeNak
    else i2cConfirmWrites p (pos + 1) tw

/-- The I2C response processing for one flushed frame (i2c.go 106-138), with
    `toWrite` and `toRead` the pending counters and `hasRead` the pending
    read-request flag.  Returns the updated flag and the read payload
    delivered to the caller, or the aborting error. -/
def i2cConfirm (p : List Nat) (toWrite toRead : Nat) (hasRead : Bool) :
    Except I2CErr (Bool × List Nat) :=
  match i2cConfirmWrites p 2 toWrite with
  | .error e => .error e
  | .ok pos =>
    if 0 < toRead then
      if hasRead then
        if p.getD pos 0 != 1 then .error .readNak
        else .ok (false, (p.drop (pos + 1)).take toRead)
      else .ok (hasRead, (p.drop pos).take toRead)
    else .ok (hasRead, [])

/-! ## SPI codec, transfer (spi.go, SPI) -/

/-- One recorded SPI packet: the raw frame bytes, whether the frame opens a
    new write operation (carries the 5-byte 0xc4 header), and how many caller
    data bytes it carries.  The last two fields are bookkeeping carried by the
    state so the flush point can record them. -/
structure SpiFrame where
  bytes : List Nat
  opStart : Bool
  data : Nat
deriving Repr, DecidableEq

/-- A transport event of the SPI write path: a frame written, or a 5-byte
    acknowledgement read. -/
inductive SpiEv
  | wr (f : SpiFrame)
  | rd (n : Nat)
deriving Repr, DecidableEq

/-- The state of the SPI chunking loop: the frame assembly buffer `p`, the
    bytes `olen` already put into the current operation, the number `sent` of
    packets whose acknowledgements are still pending, the transport events so
    far, and bookkeeping for the frame being assembled. -/
structure SpiSt where
  p : List Nat
  olen : Nat
  sent : Nat
  events : List SpiEv
  curData : Nat
  curOpStart : Bool
deriving Repr

/-- `maxDataLen` from spi.go 200: a packet is flushed once the assembly buffer
    reaches this length (header bytes included). -/
def maxDataLen : Nat := 509

/-- `maxOpLen` from spi.go 202: the data cap of a single 0xc4 write operation. -/
def maxOpLen : Nat := 32768 - maxDataLen * 2

/-- The frame a flush sends: the assembly buffer with its first two bytes
    set to the little-endian length of what follows them (spi.go 165-168,
    and identically i2c.go 79-82). -/
def setLenHeader (p : List Nat) : List Nat :=
  let plen := p.length - 2
  (p.set 0 (plen % 256)).set 1 (plen / 256 % 256)

/-- The `write` closure of spi.go (lines 160-198) under an error-free
    all-acknowledging device: set the little-endian length header, emit the
    frame, and when `finish` is set read one 5-byte acknowledgement per
    pending packet.  The Go code keeps the first two bytes of the buffer;
    they are rewritten at the next flush, so only their count matters. -/
def spiFlush (s : SpiSt) (finish : Bool) : SpiSt :=
  if s.p.length ≤ 2 then s
  else
    let frame := setLenHeader s.p
    let sent := s.sent + 1
    let events := s.events ++ [SpiEv.wr ⟨frame, s.curOpStart, s.curData⟩]
    let evsent : List SpiEv × Nat :=
      if finish then (events ++ List.replicate sent (SpiEv.rd 5), 0)
      else (events, sent)
    { p := frame.take 2, olen := s.olen, sent := evsent.2, events := evsent.1,
      curData := 0, curOpStart := false }

/-- Operation start (spi.go 207-215): when no operation is open, append the
    2-byte length placeholder and the 0xc4 header announcing the operation
    length `min (w.length - pos) maxOpLen`. -/
def spiHeader (w : List Nat) (pos : Nat) (s : SpiSt) : SpiSt :=
  if s.olen = 0 then
    let nlen := min (w.length - pos) maxOpLen
    { s with p := s.p ++ [0x00, 0x00, 0xc4, nlen % 256, nlen / 256 % 256],
             curOpStart := true }
  else s

/-- Chunk length (spi.go 217-225), computed on the post-header state: the
    remaining bytes, capped so the frame stays within `maxDataLen` and the
    operation within `maxOpLen`. -/
def spiDlen (w : List Nat) (pos : Nat) (s : SpiSt) : Nat :=
  let dlen := w.length - pos
  let plen := s.p.length
  let dlen := if plen + dlen > maxDataLen then maxDataLen - plen else dlen
  if s.olen + dlen > maxOpLen then maxOpLen - s.olen else dlen

/-- Data append (spi.go 228): copy the chunk into the assembly buffer. -/
def spiAppendChunk (w : List Nat) (pos dlen : Nat) (s : SpiSt) : SpiSt :=
  { s with p := s.p ++ (w.drop pos).take dlen, curData := s.curData + dlen }

/-- Packet send (spi.go 230-236): flush once the buffer reaches the cap. -/
def spiMaybeFlush (s : SpiSt) : SpiSt :=
  if maxDataLen ≤ s.p.length then spiFlush s false else s

/-- Operation advance (spi.go 239-250): account the chunk into the operation
    and, when the operation reaches its cap, run the finishing flush and
    reset the buffer and the operation counter. -/
def spiOpAdvance (dlen : Nat) (s : SpiSt) : SpiSt :=
  let s := { s with olen := s.olen + dlen }
  if s.olen = maxOpLen then
    let s := spiFlush s true
    { s with p := [], olen := 0 }
  else s

/-- One iteration of the SPI chunking loop (spi.go 206-251), taken when
    `pos < w.length`: the phases above in source order. -/
def spiStep (w : List Nat) (pos : Nat) (s : SpiSt) : Nat × SpiSt :=
  let s := spiHeader w pos s
  let dlen := spiDlen w pos s
  let s := spiAppendChunk w pos dlen s
  let s := spiMaybeFlush s
  (pos + dlen, spiOpAdvance dlen s)

/-- The fuel-indexed SPI chunking loop; every iteration advances `pos` by at
    least one byte, so `w.length` fuel suffices. -/
def spiLoop (w : List Nat) : Nat → Nat → SpiSt → Nat × SpiSt
  | 0, pos, s => (pos, s)
  | fuel+1, pos, s =>
    if pos < w.length then
      let ps := spiStep w pos s
      spiLoop w fuel ps.1 ps.2
    else (pos, s)

inductive SpiErr
  | unsupported
deriving Repr, DecidableEq

def spiInit : SpiSt :=
  { p := [], olen := 0, sent := 0, events := [], curData := 0, curOpStart := false }

/-- `IO.SPI` (spi.go 146-254) under an error-free all-acknowledging device:
    a non-empty read buffer is rejected before any transport access;
    otherwise `w` is chunked into packets and operations and a final
    finishing flush runs. -/
def spiRun (w r : List Nat) : Except SpiErr SpiSt :=
  if r.length ≠ 0 then .error .unsupported
  else
    let ps := spiLoop w (w.length + 1) 0 spiInit
    .ok (spiFlush ps.2 true)

/-- The number of frames written in an SPI event list. -/
def wrCount (evs : List SpiEv) : Nat :=
  evs.countP fun e => match e with | .wr _ => true | .rd _ => false

/-- The number of acknowledgement reads in an SPI event list. -/
def rdCount (evs : List SpiEv) : Nat :=
  evs.countP fun e => match e with | .wr _ => false | .rd _ => true

/-- The total caller data carried by the frames of an SPI event list. -/
def dataSum (evs : List SpiEv) : Nat :=
  (evs.map fun e => match e with | .wr f => f.data | .rd _ => 0).sum

/-! ## I2C codec, transactions (i2c.go, I2C) -/

/-- One recorded I2C frame flush: the raw frame bytes, the pending counters
    at the flush (`wAcks` = toWrite, `rBytes` = toRead, `pend` = hasRead),
    the total transport bytes read back (`respLen`, 0 when nothing was
    pending) and the read bytes delivered to the caller at this flush. -/
structure I2CFlush where
  frame : List Nat
  wAcks : Int
  rBytes : Int
  pend : Bool
  respLen : Int
  delivered : Int
deriving Repr

/-- The state of an I2C transaction: the frame assembly buffer `p`, the
    pending-confirmation counters, the caller read-buffer position `rpos`,
    the pending read-request flag, the flush records so far, and a count of
    the WRITE primitives emitted by the write phase. -/
structure I2CSt where
  p : List Nat
  toWrite : Int
  toRead : Int
  rpos : Int
  hasRead : Bool
  flushes : List I2CFlush
  wprims : Nat
deriving Repr

/-- The `write` closure of i2c.go (lines 76-143) under an error-free
    all-acknowledging device: append the terminating 0x00, set the
    little-endian length header, emit the frame, and when confirmations are
    pending read back `2 + clen` bytes (one ACK per pending written byte,
    one extra byte when the read-request ACK is pending, one byte per
    pending read byte, the latter copied to the caller). -/
def i2cFlush (s : I2CSt) : I2CSt :=
  if 0 < s.toWrite + s.toRead then
    if 0 < s.toRead then
      { p := [], toWrite := 0, toRead := 0, rpos := s.rpos + s.toRead,
        hasRead := false,
        flushes := s.flushes ++ [⟨setLenHeader (s.p ++ [0x00]), s.toWrite, s.toRead, s.hasRead,
          2 + (if s.hasRead then s.toWrite + s.toRead + 1 else s.toWrite + s.toRead), s.toRead⟩],
        wprims := s.wprims }
    else
      { p := [], toWrite := 0, toRead := s.toRead, rpos := s.rpos,
        hasRead := s.hasRead,
        flushes := s.flushes ++ [⟨setLenHeader (s.p ++ [0x00]), s.toWrite, s.toRead, s.hasRead,
          2 + (if s.hasRead then s.toWrite + s.toRead + 1 else s.toWrite + s.toRead), 0⟩],
        wprims := s.wprims }
  else
    { p := [], toWrite := s.toWrite, toRead := s.toRead, rpos := s.rpos,
      hasRead := s.hasRead,
      flushes := s.flushes ++ [⟨setLenHeader (s.p ++ [0x00]), s.toWrite, s.toRead, s.hasRead, 0, 0⟩],
      wprims := s.wprims }

/-- The `pack` closure of i2c.go (lines 145-162): flush first when appending
    would reach the 510-byte frame cap, then append, opening a fresh frame
    (length placeholder plus the 0xAA stream command) if the buffer is empty. -/
def i2cPack (s : I2CSt) (elems : List Nat) : I2CSt :=
  let s2 := if maxPacketLen - 2 ≤ s.p.length + elems.length then i2cFlush s else s
  let p2 := if s2.p.length = 0 then ([0x00, 0x00, 0xaa] : List Nat) ++ elems
            else s2.p ++ elems
  { s2 with p := p2 }

/-- Primitive closing of one iteration of the I2C write loop
    (i2c.go 194-208): set the length byte at the front of the primitive
    (the dead `pos == 0` branch of the Go code included), pack it, account
    its payload into `toWrite`, and keep the retained one-byte slice. -/
def i2cWFinish (pos : Nat) (d : List Nat) (s : I2CSt) : Nat × List Nat × I2CSt :=
  let dlen := if pos = 0 then d.length - 1 + 1 else d.length - 1
  let d2 := d.set 0 (0x80 ||| (dlen % 256))
  let s2 := i2cPack s d2
  (pos, [0x80 ||| (dlen % 256)],
   { s2 with toWrite := s2.toWrite + dlen, wprims := s2.wprims + 1 })

/-- One iteration of the I2C write-primitive loop (i2c.go 174-209), taken
    when `pos < w.length`: the first primitive is prefixed with the address
    byte and its chunk capped at 62 data bytes, later primitives carry up
    to 63. -/
def i2cWStep (addr : Nat) (w : List Nat) (pos : Nat) (d : List Nat) (s : I2CSt) :
    Nat × List Nat × I2CSt :=
  if pos = 0 then
    let dlen := if min (w.length - pos) 63 = 63 then 62 else min (w.length - pos) 63
    i2cWFinish (pos + dlen) (d ++ [(addr * 2) % 256] ++ (w.drop pos).take dlen) s
  else
    let dlen := min (w.length - pos) 63
    i2cWFinish (pos + dlen) (d ++ (w.drop pos).take dlen) s

/-- The fuel-indexed I2C write-primitive loop; every iteration advances `pos`
    by at least one byte, so `w.length` fuel suffices. -/
def i2cWLoop (addr : Nat) (w : List Nat) :
    Nat → Nat → List Nat → I2CSt → Nat × List Nat × I2CSt
  | 0, pos, d, s => (pos, d, s)
  | fuel+1, pos, d, s =>
    if pos < w.length then
      let t := i2cWStep addr w pos d s
      i2cWLoop addr w fuel t.1 t.2.1 t.2.2
    else (pos, d, s)

/-- The write phase of `IO.I2C` (i2c.go 164-210): when `w` is non-empty,
    pack a START primitive and run the write-primitive loop. -/
def i2cWritePhase (addr : Nat) (w : List Nat) (s : I2CSt) : I2CSt :=
  if w.length ≠ 0 then
    let s := i2cPack s [0x74]
    let t := i2cWLoop addr w (w.length + 1) 0 [0x80] s
    t.2.2
  else s

/-- The READ primitive appended for one chunk (i2c.go 239-244): subsequent
    chunks encode the full chunk length, the first chunk encodes one byte
    less (reserving the mandatory trailing one-byte READ primitive) and
    nothing at all for a chunk of at most one byte. -/
def i2cRPrim (d : List Nat) (maxRLen : Nat) (dlen : Int) : List Nat :=
  if maxRLen = 63 then d ++ [0xc0 ||| (dlen.emod 256).toNat]
  else if 1 < dlen then d ++ [0xc0 ||| ((dlen.emod 256 - 1).emod 256).toNat]
  else d

/-- One iteration of the I2C read-primitive loop (i2c.go 224-270), taken
    when `0 < rlen`.  When the pending response would reach the 512-byte
    packet cap the chunk is trimmed, the pending read-request
    acknowledgement is pre-discounted from `toRead`, and the frame is
    packed and flushed. -/
def i2cRStep (rlen : Int) (d : List Nat) (maxRLen : Nat) (s : I2CSt) :
    Int × List Nat × Nat × I2CSt :=
  if (maxPacketLen : Int) ≤ 2 + s.toWrite + s.toRead + min rlen 63 then
    let dlen := min rlen 63 - (2 + s.toWrite + s.toRead + min rlen 63 - maxPacketLen)
    let s2 := if s.hasRead then { s with toRead := s.toRead - 1 } else s
    let d2 := i2cRPrim d maxRLen dlen
    let s3 := { s2 with toRead := s2.toRead + dlen }
    (rlen - dlen, [], (if maxRLen = 64 then 63 else maxRLen), i2cFlush (i2cPack s3 d2))
  else
    let dlen := min rlen 63
    let d2 := i2cRPrim d maxRLen dlen
    let s3 := { s with toRead := s.toRead + dlen }
    (rlen - dlen, d2, (if maxRLen = 64 then 63 else maxRLen), s3)

/-- The fuel-indexed I2C read-primitive loop; every iteration decreases
    `rlen` by at least one, so `r.length` fuel suffices. -/
def i2cRLoop : Nat → Int → List Nat → Nat → I2CSt → Int × List Nat × Nat × I2CSt
  | 0, rlen, d, maxRLen, s => (rlen, d, maxRLen, s)
  | fuel+1, rlen, d, maxRLen, s =>
    if 0 < rlen then
      let t := i2cRStep rlen d maxRLen s
      i2cRLoop fuel t.1 t.2.1 t.2.2.1 t.2.2.2
    else (rlen, d, maxRLen, s)

/-- The read phase of `IO.I2C` (i2c.go 212-282): when `rlen` is non-zero,
    build the read request (START, one-byte WRITE of the address with R/W=1),
    set the pending read-request flag, run the read-primitive loop, account
    for the mandatory trailing one-byte READ primitive, and pack it. -/
def i2cReadPhase (addr : Nat) (rlen : Nat) (s : I2CSt) : I2CSt :=
  if rlen ≠ 0 then
    let d : List Nat := [0x74, 0x80 ||| 1, ((addr * 2) % 256) ||| 1]
    let s := { s with hasRead := true }
    let t := i2cRLoop (rlen + 1) rlen d 64 s
    let d := t.2.1
    let s := t.2.2.2
    let s := if !s.hasRead then { s with toRead := s.toRead + 1 } else s
    let d := d ++ [0xc0]
    i2cPack s d
  else s

def i2cInit : I2CSt :=
  { p := [], toWrite := 0, toRead := 0, rpos := 0, hasRead := false,
    flushes := [], wprims := 0 }

/-- `IO.I2C` (i2c.go 48-295) under an error-free all-acknowledging device:
    write phase, read phase, STOP primitive, final flush. -/
def i2cRun (addr : Nat) (w r : List Nat) : I2CSt :=
  let s := i2cWritePhase addr w i2cInit
  let s := i2cReadPhase addr r.length s
  let s := i2cPack s [0x75]
  i2cFlush s

/-- The response bytes consumed at one flush, headers excluded. -/
def flushConsumed (f : I2CFlush) : Int :=
  if f.respLen = 0 then 0 else f.respLen - 2

/-- The total response bytes (headers excluded) consumed by a transaction. -/
def i2cRespTotal (s : I2CSt) : Int := (s.flushes.map flushConsumed).sum

/-- The frames written by a transaction, in order. -/
def i2cFrames (s : I2CSt) : List (List Nat) := s.flushes.map fun f => f.frame

/-! ## Observers and spec-side predicates -/

/-- The number of packets a write-only SPI transfer emits. -/
def spiPackets (w : List Nat) : Nat :=
  match spiRun w [] with
  | .ok s => wrCount s.events
  | .error _ => 0

/-- The number of 5-byte acknowledgement reads a write-only SPI transfer
    performs. -/
def spiAcks (w : List Nat) : Nat :=
  match spiRun w [] with
  | .ok s => rdCount s.events
  | .error _ => 0

/-- The total caller data carried by the packets of a write-only SPI
    transfer. -/
def spiDataTotal (w : List Nat) : Nat :=
  match spiRun w [] with
  | .ok s => dataSum s.events
  | .error _ => 0

/-- The number of operation-opening packets of a write-only SPI transfer. -/
def spiOpStarts (w : List Nat) : Nat :=
  match spiRun w [] with
  | .ok s => (s.events.countP fun e => match e with | .wr f => f.opStart | .rd _ => false)
  | .error _ => 0

/-- A length-prefixed frame whose little-endian 2-byte header equals the
    exact number of payload bytes that follow it. -/
def frameOk (f : List Nat) : Prop :=
  2 ≤ f.length ∧ f.getD 0 0 + 256 * f.getD 1 0 = f.length - 2

/-- The SPI transport events of a write-only transfer. -/
def spiEvents (w : List Nat) : List SpiEv :=
  match spiRun w [] with
  | .ok s => s.events
  | .error _ => []

/-- The packets whose acknowledgements are still pending when a write-only
    SPI transfer returns. -/
def spiPending (w : List Nat) : Nat :=
  match spiRun w [] with
  | .ok s => s.sent
  | .error _ => 0

/-- The length of the assembly buffer when a write-only SPI transfer
    returns. -/
def spiFinalBufLen (w : List Nat) : Nat :=
  match spiRun w [] with
  | .ok s => s.p.length
  | .error _ => 0

/-- Scanning SPI transport events in order with `pending` unconfirmed
    packets: every operation-opening frame must find zero pending packets
    (acknowledgements drained before the next operation begins), writes add
    a pending packet, acknowledgement reads retire one. -/
def drainOk : List SpiEv → Int → Bool
  | [], _ => true
  | .wr f :: rest, pending => (!f.opStart || pending == 0) && drainOk rest (pending + 1)
  | .rd _ :: rest, pending => drainOk rest (pending - 1)

/-- Every frame written in an SPI event list has an exact length header. -/
def FramesOk (evs : List SpiEv) : Prop :=
  ∀ f, SpiEv.wr f ∈ evs → frameOk f.bytes

/-- The loop invariant of the SPI chunking loop, at the head of each
    iteration: the recorded data plus the buffered chunk equal the consumed
    position; acknowledgement reads balance written packets minus the
    pending ones; a closed operation means an empty, clean buffer with
    nothing pending; an open operation keeps the buffer between 2 and 508
    bytes and below the operation cap, with the buffer length tied to the
    operation progress by full 507-byte continuation flushes; a drained
    buffer carries no data; an operation-opening buffer has nothing
    pending; recorded events are drained in order and their frames carry
    exact length headers. -/
def SpiInv (_w : List Nat) (pos : Nat) (s : SpiSt) : Prop :=
  dataSum s.events + s.curData = pos ∧
  rdCount s.events + s.sent = wrCount s.events ∧
  (s.olen = 0 → s.p = [] ∧ s.curData = 0 ∧ s.curOpStart = false ∧ s.sent = 0) ∧
  (s.olen ≠ 0 → 2 ≤ s.p.length ∧ s.p.length ≤ 508 ∧ s.olen < maxOpLen) ∧
  (s.p.length ≤ 2 → s.curData = 0) ∧
  (s.curOpStart = true → s.sent = 0) ∧
  drainOk s.events 0 = true ∧
  FramesOk s.events ∧
  (s.olen ≠ 0 → ∃ k, s.olen + 5 = s.p.length + 507 * k ∧ (s.curOpStart = true → k = 0)) ∧
  s.olen ≤ pos

/-- The pending confirmation bytes of an I2C transaction state: one per
    unconfirmed written byte, one per requested read byte, one for a pending
    read-request acknowledgement. -/
def i2cPend (s : I2CSt) : Int :=
  s.toWrite + s.toRead + (if s.hasRead then 1 else 0)

/-- A well-formed I2C flush record: the transport bytes read at the flush
    are the two header bytes plus one per pending written byte, plus the
    pending read-request acknowledgement, plus the pending read bytes, all
    of which are delivered — and nothing at all when nothing is pending. -/
def FlushRecOk (f : I2CFlush) : Prop :=
  f.respLen = (if 0 < f.wAcks + f.rBytes
               then 2 + f.wAcks + f.rBytes + (if f.pend then 1 else 0) else 0) ∧
  f.delivered = (if 0 < f.rBytes then f.rBytes else 0)

/-- Every recorded flush of an I2C transaction is well formed and its frame
    has an exact length header. -/
def I2CRecsOk (s : I2CSt) : Prop :=
  ∀ f ∈ s.flushes, FlushRecOk f ∧ frameOk f.frame

/-- The loop invariant of the I2C write-primitive loop, at the head of each
    iteration: the retained slice is one byte; consumed response bytes plus
    the pending write counter equal the packed data bytes (address byte
    included); no read state yet; the pending writes fit the buffer below
    the frame cap; records are well formed. -/
def WInv (w : List Nat) (pos : Nat) (d : List Nat) (s : I2CSt) : Prop :=
  d.length = 1 ∧
  i2cRespTotal s + s.toWrite = (if pos = 0 then 0 else (pos : Int) + 1) ∧
  s.toRead = 0 ∧ s.hasRead = false ∧ s.rpos = 0 ∧
  s.toWrite + 4 ≤ (s.p.length : Int) ∧
  s.p.length ≤ 509 ∧
  0 ≤ s.toWrite ∧
  I2CRecsOk s ∧
  pos ≤ w.length

/-- The loop invariant of the I2C read-primitive loop, at the head of each
    iteration, with `wtot` the response bytes owed to the write phase and
    `r0` the requested read length: pending counters bounded below the
    packet cap; consumed-plus-pending response bytes and delivered-plus-
    pending read bytes track the consumed read length, discounted by one
    exactly while the read-request acknowledgement is still pending (and
    re-credited by the trailing one-byte READ primitive); nothing is
    delivered while the read request is pending; the primitive slice stays
    small; records are well formed. -/
def RInv (wtot : Int) (r0 : Nat) (rlen : Int) (d : List Nat) (maxRLen : Nat)
    (s : I2CSt) : Prop :=
  0 ≤ rlen ∧ rlen ≤ (r0 : Int) ∧
  0 ≤ s.toWrite ∧ s.toWrite ≤ 505 ∧ 0 ≤ s.toRead ∧
  s.toWrite + s.toRead ≤ 509 ∧
  i2cRespTotal s + i2cPend s
    = wtot + 1 + ((r0 : Int) - rlen) - (if s.hasRead then 0 else 1) ∧
  s.rpos + s.toRead = ((r0 : Int) - rlen) - (if s.hasRead then 0 else 1) ∧
  (s.hasRead = true → s.rpos = 0) ∧
  s.p.length ≤ 509 ∧ (s.p.length = 0 ∨ 3 ≤ s.p.length) ∧
  (s.toWrite = 0 ∨ s.toWrite + 4 ≤ (s.p.length : Int)) ∧
  63 * (d.length : Int) ≤ 251 + s.toRead + (if rlen ≤ 0 then 62 else 0) ∧
  (maxRLen = 63 ∨ (maxRLen = 64 ∧ 3 ≤ d.length)) ∧
  I2CRecsOk s

/-- The pin-state acceptance rule claimed by the specification for `WritePin`
    (written from the spec's words, for comparison with `writePinCheck`):
    bit 7 of the echoed byte must be set and, when output is requested,
    bit 6 must additionally equal the requested level. -/
def claimedPinRule (output level : Bool) (b : Nat) : Prop :=
  b.testBit 7 = true ∧ (output = true → b.testBit 6 = level)

instance (output level : Bool) (b : Nat) : Decidable (claimedPinRule output level b) := by
  unfold claimedPinRule
  infer_instance

/-! ## Theorems -/

/-- C3 (code bug): the spec claims `SetSPI` succeeds only if the reply has
    byte 2 = 0xC0 AND byte 3 = 0x01, failing on any reply violating either
    condition — also the intent recorded in the code's own commented-out
    error message ("expected (0xc0 0x01)").  The implemented check
    `p[2] != 0xc0 && p[3] != 0x01` rejects only when BOTH bytes are wrong:
    at the failing reply with byte 2 = 0xC0 and byte 3 = 0x02 the code
    accepts although byte 3 differs from 0x01 (and symmetrically for
    byte 3 = 0x01 with a wrong byte 2).  The configuration frame for
    mode 0, clock 0, MSB order does begin 0x1D 0x00 0xC0 0x1A and reads
    back a 6-byte acknowledgement, as the spec scenario states. -/
theorem setspi_ack_and_slip :
    setSPIAckOk 0xc0 0x02 = true ∧ (0x02 : Nat) ≠ 0x01 ∧
    setSPIAckOk 0x37 0x01 = true ∧ (0x37 : Nat) ≠ 0xc0 ∧
    (setSPIFrame 0 0 0).take 4 = [0x1d, 0x00, 0xc0, 0x1a] ∧
    (setSPIFrame 0 0 0).length = 31 := by decide

/-- C8: for every write buffer and every non-empty read buffer, `IO.SPI`
    fails with the unsupported-operation error immediately: the guard
    precedes the transfer loop, so no frame is written and no
    acknowledgement is read. -/
theorem spi_read_unsupported (w r : List Nat) (h : r ≠ []) :
    spiRun w r = .error .unsupported := by
  have hl : r.length ≠ 0 := by simpa using h
  simp [spiRun, hl]

/-- Witness for `spi_read_unsupported` at a concrete input. -/
theorem spi_read_unsupported_witness :
    spiRun [1, 2, 3] [0] = .error .unsupported :=
  spi_read_unsupported [1, 2, 3] [0] (by decide)

/-- The `ReadPin` level decoding, phrased through `Nat.testBit`, for byte
    values. -/
theorem readPinDecode_testBit :
    ∀ b < 256, readPinDecode b = (if b.testBit 7 then b.testBit 6 else !b.testBit 6) := by
  decide

/-- C9: `ReadPin` decodes the echoed status byte at offset `5 + pin`:
    bit 7 set means the pin is an output whose returned level equals bit 6
    (no inversion); bit 7 clear means the pin is an input with inverted
    polarity, bit 6 clear returning true and bit 6 set returning false. -/
theorem readpin_decode_rule (pin : Nat) (echo : List Nat)
    (hh : echo.getD 0 0 = 0x0b) (hc : echo.getD 2 0 = 0xcc)
    (hb : echo.getD (5 + pin) 0 < 256) :
    readPin pin echo = some
      (if (echo.getD (5 + pin) 0).testBit 7 then (echo.getD (5 + pin) 0).testBit 6
       else !(echo.getD (5 + pin) 0).testBit 6) := by
  have hb2 := readPinDecode_testBit _ hb
  have hcond : (echo.getD 0 0 != 0x0b || echo.getD 2 0 != 0xcc) = false := by
    rw [hh, hc]; decide
  unfold readPin
  rw [hcond, if_neg (show ¬(false = true) by decide), hb2]

/-- Witness for `readpin_decode_rule`: an echoed byte 0xC0 at pin 1 decodes
    as output high, and 0x40 at pin 1 would be an input reporting low. -/
theorem readpin_decode_rule_witness :
    readPin 1 [0x0b, 0x00, 0xcc, 0x08, 0x00, 0x00, 0xc0, 0, 0, 0, 0, 0, 0] = some true := by
  have h := readpin_decode_rule 1 [0x0b, 0x00, 0xcc, 0x08, 0x00, 0x00, 0xc0, 0, 0, 0, 0, 0, 0]
    (by decide) (by decide) (by decide)
  simpa using h

/-- C4 counterexample: the claim requires bit 7 of the echoed target byte to
    be set for success of `WritePin`.  For input mode the code accepts
    exactly the opposite: with echoed byte 0x80 (bit 7 set) it reports the
    state mismatch although the claimed rule holds, and with echoed byte
    0x00 (bit 7 clear) it succeeds although the claimed rule fails. -/
theorem writepin_mask_claim_refuted :
    (writePin 0 false false [0x0b, 0x00, 0xcc, 0x08, 0x00, 0x80, 0, 0, 0, 0, 0, 0, 0]
        = some PinErr.stateMismatch ∧ claimedPinRule false false 0x80) ∧
    (writePin 0 false false [0x0b, 0x00, 0xcc, 0x08, 0x00, 0x00, 0, 0, 0, 0, 0, 0, 0]
        = none ∧ ¬ claimedPinRule false false 0x00) := by decide

/-- The `WritePin` confirmation check, phrased through `Nat.testBit`, for
    byte values. -/
theorem writePinCheck_testBit :
    ∀ b < 256, ∀ output level : Bool,
      writePinCheck output level b =
        (if output then (b.testBit 7 || (level && b.testBit 6)) else !b.testBit 7) := by
  decide

/-- C4 amended: after the header check `WritePin` validates the echoed byte
    of the target pin (offset `5 + pin`) as follows: when output is
    requested the call fails with the pin-state mismatch unless bit 7 is
    set or, when the requested level is high, bit 6 is set (the code tests
    the mask by intersection, not inclusion); when input is requested it
    fails unless bit 7 is clear.  The mismatch is reported as a failure and
    not retried. -/
theorem writepin_confirm_rule (pin : Nat) (output level : Bool) (echo : List Nat)
    (hh : echo.getD 0 0 = 0x0b) (hc : echo.getD 2 0 = 0xcc)
    (hb : echo.getD (5 + pin) 0 < 256) :
    writePin pin output level echo =
      (if (if output
            then ((echo.getD (5 + pin) 0).testBit 7
                  || (level && (echo.getD (5 + pin) 0).testBit 6))
            else !(echo.getD (5 + pin) 0).testBit 7)
       then none else some PinErr.stateMismatch) := by
  have hb2 := writePinCheck_testBit _ hb output level
  have hcond : (echo.getD 0 0 != 0x0b || echo.getD 2 0 != 0xcc) = false := by
    rw [hh, hc]; decide
  unfold writePin
  rw [hcond, if_neg (show ¬(false = true) by decide), hb2]

/-- Witness for `writepin_confirm_rule`: setting pin 4 as output high with
    echoed byte 0xF8 succeeds. -/
theorem writepin_confirm_rule_witness :
    writePin 4 true true [0x0b, 0x00, 0xcc, 0x08, 0x00, 0x08, 0x00, 0x08, 0x08, 0xf8, 0x08, 0x08, 0x08]
      = none := by
  have h := writepin_confirm_rule 4 true true
    [0x0b, 0x00, 0xcc, 0x08, 0x00, 0x08, 0x00, 0x08, 0x08, 0xf8, 0x08, 0x08, 0x08]
    (by decide) (by decide) (by decide)
  simpa using h

/-- C6 counterexample: with a 511-byte caller buffer the transport frame holds
    at most 510 payload bytes; when it announces 511, `UART.Read` returns 511
    but copies only 510 bytes, so the returned count and the copied count
    disagree. -/
theorem uart_read_shortfall :
    ([0xff, 0x01] ++ List.replicate 510 0).length = uartReadPlen 511 + 2 ∧
    uartRead 511 ([0xff, 0x01] ++ List.replicate 510 0) = (511, 510) ∧
    (510 : Nat) ≠ 511 := by decide

/-- C6 amended: `UART.Read` returns `min(announced, len b)` bytes, where the
    announced length is the little-endian 16-bit header of the received
    frame; the number of payload bytes actually copied is the minimum of the
    returned count and the 510-byte per-read frame capacity, so the two
    counts coincide exactly for caller buffers of at most 510 bytes and the
    excess of a longer announcement is discarded. -/
theorem uart_read_min_rule (blen : Nat) (p : List Nat)
    (hp : p.length = uartReadPlen blen + 2) :
    (uartRead blen p).1 = min (((p.getD 1 0) <<< 8) ||| p.getD 0 0) blen ∧
    (uartRead blen p).2 = min (uartRead blen p).1 (uartReadPlen blen) ∧
    (blen ≤ 510 → (uartRead blen p).2 = (uartRead blen p).1) := by
  unfold uartRead uartReadPlen
  unfold uartReadPlen at hp
  by_cases hgt : (((p.getD 1 0) <<< 8) ||| p.getD 0 0) > blen <;>
    simp only [hgt, if_true, if_false] <;>
    refine ⟨by omega, by omega, by omega⟩

/-- Witness for `uart_read_min_rule`: a 4-byte caller buffer receiving a
    frame announcing 3 payload bytes returns 3 bytes, all copied. -/
theorem uart_read_min_rule_witness :
    uartRead 4 [0x03, 0x00, 7, 8, 9, 0] = (3, 3) := by
  have h := uart_read_min_rule 4 [0x03, 0x00, 7, 8, 9, 0] (by decide)
  have h1 := h.1
  have h2 := h.2.2 (by decide)
  simp only [h1] at h2 ⊢
  exact Prod.ext (by decide) (by simpa using h2)

/-- The I2C write-acknowledgement loop fails exactly when one of the
    consumed bytes is 0x00. -/
theorem i2cConfirmWrites_error_iff (p : List Nat) :
    ∀ tw pos, (i2cConfirmWrites p pos tw = .error .writeNak ↔
      ∃ i, i < tw ∧ p.getD (pos + i) 0 = 0) := by
  intro tw
  induction tw with
  | zero =>
    intro pos
    constructor
    · intro h
      simp only [i2cConfirmWrites] at h
      exact Except.noConfusion h
    · rintro ⟨i, hi, _⟩
      exact absurd hi (by omega)
  | succ n ih =>
    intro pos
    simp only [i2cConfirmWrites]
    by_cases h0 : p.getD pos 0 = 0
    · rw [if_pos h0]
      constructor
      · intro _
        exact ⟨0, by omega, by rw [Nat.add_zero]; exact h0⟩
      · intro _
        rfl
    · rw [if_neg h0, ih (pos + 1)]
      constructor
      · rintro ⟨i, hi, hz⟩
        refine ⟨i + 1, by omega, ?_⟩
        rw [show pos + (i + 1) = pos + 1 + i by omega]
        exact hz
      · rintro ⟨i, hi, hz⟩
        match i, hi, hz with
        | 0, hi, hz =>
          rw [Nat.add_zero] at hz
          exact absurd hz h0
        | i + 1, hi, hz =>
          refine ⟨i, by omega, ?_⟩
          rw [show pos + 1 + i = pos + (i + 1) by omega]
          exact hz

/-- The I2C write-acknowledgement loop succeeds, advancing the read position
    past the consumed bytes, when all consumed bytes are nonzero. -/
theorem i2cConfirmWrites_ok (p : List Nat) :
    ∀ tw pos, (∀ i, i < tw → p.getD (pos + i) 0 ≠ 0) →
      i2cConfirmWrites p pos tw = .ok (pos + tw) := by
  intro tw
  induction tw with
  | zero =>
    intro pos _
    simp only [i2cConfirmWrites, Nat.add_zero]
  | succ n ih =>
    intro pos h
    have h0 : ¬ p.getD pos 0 = 0 := by
      have := h 0 (by omega)
      rwa [Nat.add_zero] at this
    have hrec := ih (pos + 1) (fun i hi => by
      rw [show pos + 1 + i = pos + (i + 1) by omega]
      exact h (i + 1) (by omega))
    simp only [i2cConfirmWrites]
    rw [if_neg h0, hrec, show pos + 1 + n = pos + (n + 1) by omega]

/-- C7: in the I2C response processing, a WRITE acknowledgement byte 0x00
    causes the WriteNak failure while any nonzero byte counts as success;
    when the writes succeed and a read-request acknowledgement is pending it
    must be 0x01, any other value causing the ReadNak failure; and a failed
    confirmation never delivers read data. -/
theorem i2c_ack_nak_rule (p : List Nat) (toWrite toRead : Nat) (hasRead : Bool) :
    (i2cConfirm p toWrite toRead hasRead = .error .writeNak ↔
        ∃ i, i < toWrite ∧ p.getD (2 + i) 0 = 0) ∧
    ((∀ i, i < toWrite → p.getD (2 + i) 0 ≠ 0) → 0 < toRead → hasRead = true →
        (i2cConfirm p toWrite toRead hasRead = .error .readNak ↔
          ¬ p.getD (2 + toWrite) 0 = 1)) ∧
    (∀ e, i2cConfirm p toWrite toRead hasRead = .error e →
        ∀ hr out, ¬ i2cConfirm p toWrite toRead hasRead = .ok (hr, out)) := by
  refine ⟨?_, ?_, ?_⟩
  · by_cases hz : ∃ i, i < toWrite ∧ p.getD (2 + i) 0 = 0
    · have hw : i2cConfirmWrites p 2 toWrite = .error .writeNak :=
        (i2cConfirmWrites_error_iff p toWrite 2).mpr hz
      simp only [i2cConfirm, hw]
      exact ⟨fun _ => hz, fun _ => by trivial⟩
    · push_neg at hz
      have hw : i2cConfirmWrites p 2 toWrite = .ok (2 + toWrite) :=
        i2cConfirmWrites_ok p toWrite 2 fun i hi => hz i hi
      simp only [i2cConfirm, hw]
      constructor
      · intro h
        exfalso
        split at h
        · split at h
          · split at h
            · injection h with h2
              exact I2CErr.noConfusion h2
            · exact Except.noConfusion h
          · exact Except.noConfusion h
        · exact Except.noConfusion h
      · rintro ⟨i, hi, hzz⟩
        exact absurd hzz (hz i hi)
  · intro hall hr hh
    have hw : i2cConfirmWrites p 2 toWrite = .ok (2 + toWrite) :=
      i2cConfirmWrites_ok p toWrite 2 hall
    simp only [i2cConfirm, hw, hh, if_pos hr, if_pos rfl]
    by_cases hq : p.getD (2 + toWrite) 0 = 1
    · have hbq : (p.getD (2 + toWrite) 0 != 1) = false := by rw [hq]; rfl
      rw [hbq, if_neg (show ¬(false = true) by decide)]
      exact ⟨fun h => absurd h (by exact fun h => Except.noConfusion h),
             fun h => absurd hq h⟩
    · have hbq : (p.getD (2 + toWrite) 0 != 1) = true := bne_iff_ne.mpr hq
      rw [hbq, if_pos rfl]
      exact ⟨fun _ => hq, fun _ => rfl⟩
  · intro e he hr out hok
    rw [he] at hok
    exact Except.noConfusion hok

/-- Witness for `i2c_ack_nak_rule`: a response whose single write
    acknowledgement is 0x00 aborts with the WriteNak failure. -/
theorem i2c_ack_nak_rule_witness :
    i2cConfirm [0x03, 0x00, 0x00] 1 0 false = .error .writeNak :=
  (i2c_ack_nak_rule [0x03, 0x00, 0x00] 1 0 false).1.mpr ⟨0, by decide, by decide⟩

/-- C1 counterexample: the transaction of the spec's own scenario,
    `I2C(addr 0x38, write [0xAC, 0x33, 0x00], read nil)`, issues one WRITE
    primitive and no read, so the claim predicts `1 + 0 + 0 = 1` response
    byte; the code consumes 4 response bytes (one acknowledgement per
    written byte, the address byte included). -/
theorem i2c_ack_per_primitive_refuted :
    (i2cRun 0x38 [0xAC, 0x33, 0x00] []).wprims = 1 ∧
    (i2cRun 0x38 [0xAC, 0x33, 0x00] []).flushes.length = 1 ∧
    i2cRespTotal (i2cRun 0x38 [0xAC, 0x33, 0x00] []) = 4 ∧
    (4 : Int) ≠ 1 + 0 + 0 := by decide

/-- C2 counterexample: a 504-byte write exactly fills one 509-byte frame, so
    the packet is flushed inside the loop and the finishing flush finds an
    empty buffer and returns without draining: one packet is sent but zero
    acknowledgement reads are performed. -/
theorem spi_ack_equals_packets_refuted :
    spiDataTotal (List.replicate 504 0) = 504 ∧
    spiPackets (List.replicate 504 0) = 1 ∧
    spiAcks (List.replicate 504 0) = 0 ∧
    (0 : Nat) ≠ 1 := by decide

/-- C5 counterexample: a 509-byte SPI write does not fit one packet: the
    packet cap of 509 bytes counts the 2-byte length header and the 5-byte
    operation header, so the first packet carries 504 data bytes and a
    second packet carries the remaining 5; the claim predicts exactly one
    packet. -/
theorem spi_509_claim_refuted :
    spiPackets (List.replicate 509 0) = 2 ∧ (2 : Nat) ≠ 1 := by decide

/-- C5 amended: the single-packet boundary of a write-only SPI transfer is
    504 data bytes (509 minus the two header lengths): a 504-byte write
    yields exactly one packet opening exactly one operation, while 505-byte
    and 510-byte writes yield exactly two packets (still one operation). -/
theorem spi_packet_boundary_504 :
    spiPackets (List.replicate 504 0) = 1 ∧
    spiOpStarts (List.replicate 504 0) = 1 ∧
    spiPackets (List.replicate 505 0) = 2 ∧
    spiOpStarts (List.replicate 505 0) = 1 ∧
    spiPackets (List.replicate 510 0) = 2 ∧
    spiOpStarts (List.replicate 510 0) = 1 := by decide

/-! ## SPI loop invariant machinery -/

theorem maxDataLen_eq : maxDataLen = 509 := rfl

theorem maxOpLen_eq : maxOpLen = 31750 := rfl

theorem wrCount_append (a b : List SpiEv) : wrCount (a ++ b) = wrCount a + wrCount b := by
  simp [wrCount, List.countP_append]

theorem rdCount_append (a b : List SpiEv) : rdCount (a ++ b) = rdCount a + rdCount b := by
  simp [rdCount, List.countP_append]

theorem dataSum_append (a b : List SpiEv) : dataSum (a ++ b) = dataSum a + dataSum b := by
  simp [dataSum]

theorem wrCount_wr_one (f : SpiFrame) : wrCount [SpiEv.wr f] = 1 := rfl

theorem rdCount_wr_zero (f : SpiFrame) : rdCount [SpiEv.wr f] = 0 := rfl

theorem dataSum_wr_data (f : SpiFrame) : dataSum [SpiEv.wr f] = f.data := by
  simp [dataSum]

theorem wrCount_rds (n m : Nat) : wrCount (List.replicate n (SpiEv.rd m)) = 0 := by
  induction n with
  | zero => rfl
  | succ k ih =>
    rw [List.replicate_succ]
    simp [wrCount, List.countP_cons]

theorem rdCount_rds (n m : Nat) : rdCount (List.replicate n (SpiEv.rd m)) = n := by
  induction n with
  | zero => rfl
  | succ k ih =>
    rw [List.replicate_succ]
    simp [rdCount, List.countP_cons] at ih ⊢
    omega

theorem dataSum_rds (n m : Nat) : dataSum (List.replicate n (SpiEv.rd m)) = 0 := by
  induction n with
  | zero => rfl
  | succ k ih =>
    rw [List.replicate_succ]
    simp [dataSum]

theorem drainOk_rds (m : Nat) : ∀ (k : Nat) (n : Int), drainOk (List.replicate k (SpiEv.rd m)) n = true := by
  intro k
  induction k with
  | zero => intro n; rfl
  | succ j ih =>
    intro n
    rw [List.replicate_succ]
    exact ih (n - 1)

theorem drainOk_append (b : List SpiEv) : ∀ (a : List SpiEv) (n : Int),
    drainOk (a ++ b) n
      = (drainOk a n && drainOk b (n + (wrCount a : Int) - (rdCount a : Int))) := by
  intro a
  induction a with
  | nil =>
    intro n
    simp [drainOk, wrCount, rdCount]
  | cons e rest ih =>
    intro n
    cases e with
    | wr f =>
      have hc : n + 1 + (wrCount rest : Int) - (rdCount rest : Int)
          = n + (wrCount (SpiEv.wr f :: rest) : Int) - (rdCount (SpiEv.wr f :: rest) : Int) := by
        simp [wrCount, rdCount, List.countP_cons]
        omega
      show ((!f.opStart || n == 0) && drainOk (rest ++ b) (n + 1)) = _
      rw [ih (n + 1), hc, ← Bool.and_assoc]
      rfl
    | rd m =>
      have hc : n - 1 + (wrCount rest : Int) - (rdCount rest : Int)
          = n + (wrCount (SpiEv.rd m :: rest) : Int) - (rdCount (SpiEv.rd m :: rest) : Int) := by
        simp [wrCount, rdCount, List.countP_cons]
        omega
      show drainOk (rest ++ b) (n - 1) = _
      rw [ih (n - 1), hc]
      rfl

theorem drainOk_snoc_wr (evs : List SpiEv) (f : SpiFrame) (bal : Nat)
    (h : drainOk evs 0 = true) (hbal : rdCount evs + bal = wrCount evs)
    (hop : f.opStart = true → bal = 0) :
    drainOk (evs ++ [SpiEv.wr f]) 0 = true := by
  rw [drainOk_append]
  rw [h]
  have hb : (0 : Int) + (wrCount evs : Int) - (rdCount evs : Int) = (bal : Int) := by omega
  rw [hb]
  cases hf : f.opStart with
  | false => simp [drainOk, hf]
  | true =>
    have := hop hf
    subst this
    simp [drainOk, hf]

theorem drainOk_snoc_rds (evs : List SpiEv) (k m : Nat)
    (h : drainOk evs 0 = true) :
    drainOk (evs ++ List.replicate k (SpiEv.rd m)) 0 = true := by
  rw [drainOk_append, h, drainOk_rds]
  rfl

theorem framesOk_nil : FramesOk [] := by
  intro f hf
  exact absurd hf (List.not_mem_nil _)

theorem framesOk_snoc_wr (evs : List SpiEv) (f : SpiFrame)
    (h : FramesOk evs) (hf : frameOk f.bytes) : FramesOk (evs ++ [SpiEv.wr f]) := by
  intro g hg
  rcases List.mem_append.mp hg with h1 | h2
  · exact h g h1
  · rw [List.mem_singleton] at h2
    injection h2 with h2
    rw [h2]
    exact hf

theorem framesOk_snoc_rds (evs : List SpiEv) (k m : Nat)
    (h : FramesOk evs) : FramesOk (evs ++ List.replicate k (SpiEv.rd m)) := by
  intro g hg
  rcases List.mem_append.mp hg with h1 | h2
  · exact h g h1
  · exact SpiEv.noConfusion (List.eq_of_mem_replicate h2)

theorem setLenHeader_spec (p : List Nat) (h2 : 2 ≤ p.length) (hb : p.length ≤ 65537) :
    frameOk (setLenHeader p) ∧ (setLenHeader p).length = p.length := by
  match p, h2 with
  | a :: b :: t, _ =>
    unfold setLenHeader frameOk
    simp only [List.length_cons, List.set_cons_zero, List.set_cons_succ, List.getD_cons_zero,
      List.getD_cons_succ]
    simp only [List.length_cons] at hb
    exact ⟨⟨by omega, by omega⟩, by simp⟩

theorem spiFlush_noop (s : SpiSt) (finish : Bool) (h : s.p.length ≤ 2) :
    spiFlush s finish = s := by
  unfold spiFlush
  rw [if_pos h]

theorem spiFlush_false_spec (s : SpiSt) (h : 2 < s.p.length) :
    spiFlush s false
      = { p := (setLenHeader s.p).take 2, olen := s.olen, sent := s.sent + 1,
          events := s.events ++ [SpiEv.wr ⟨setLenHeader s.p, s.curOpStart, s.curData⟩],
          curData := 0, curOpStart := false } := by
  unfold spiFlush
  rw [if_neg (by omega)]
  rfl

theorem spiFlush_true_spec (s : SpiSt) (h : 2 < s.p.length) :
    spiFlush s true
      = { p := (setLenHeader s.p).take 2, olen := s.olen, sent := 0,
          events := s.events ++ [SpiEv.wr ⟨setLenHeader s.p, s.curOpStart, s.curData⟩]
                    ++ List.replicate (s.sent + 1) (SpiEv.rd 5),
          curData := 0, curOpStart := false } := by
  unfold spiFlush
  rw [if_neg (by omega)]
  rfl

theorem spiHeader_facts (w : List Nat) (pos : Nat) (s : SpiSt)
    (h3 : s.olen = 0 → s.p = [] ∧ s.curData = 0 ∧ s.curOpStart = false ∧ s.sent = 0)
    (h4 : s.olen ≠ 0 → 2 ≤ s.p.length ∧ s.p.length ≤ 508 ∧ s.olen < maxOpLen)
    (h5 : s.p.length ≤ 2 → s.curData = 0)
    (h6 : s.curOpStart = true → s.sent = 0)
    (h9 : s.olen ≠ 0 → ∃ k, s.olen + 5 = s.p.length + 507 * k ∧ (s.curOpStart = true → k = 0)) :
    (spiHeader w pos s).events = s.events ∧
    (spiHeader w pos s).sent = s.sent ∧
    (spiHeader w pos s).curData = s.curData ∧
    (spiHeader w pos s).olen = s.olen ∧
    2 ≤ (spiHeader w pos s).p.length ∧
    (spiHeader w pos s).p.length ≤ 508 ∧
    ((spiHeader w pos s).p.length ≤ 2 → s.curData = 0) ∧
    ((spiHeader w pos s).curOpStart = true → s.sent = 0) ∧
    (∃ k, s.olen + 5 = (spiHeader w pos s).p.length + 507 * k ∧
      ((spiHeader w pos s).curOpStart = true → k = 0)) := by
  unfold spiHeader
  by_cases holen : s.olen = 0
  · obtain ⟨hp, hcd, hcop, hsent⟩ := h3 holen
    rw [if_pos holen]
    refine ⟨rfl, rfl, rfl, rfl, ?_, ?_, ?_, fun _ => hsent, ⟨0, ?_, fun _ => rfl⟩⟩
    · show 2 ≤ (s.p ++ _).length
      rw [hp]
      simp
    · show (s.p ++ _).length ≤ 508
      rw [hp]
      simp
    · show (s.p ++ _).length ≤ 2 → _
      rw [hp]
      intro h
      simp at h
    · show s.olen + 5 = (s.p ++ _).length + 507 * 0
      rw [hp, holen]
      simp
  · rw [if_neg holen]
    exact ⟨rfl, rfl, rfl, rfl, (h4 holen).1, (h4 holen).2.1, h5, h6,
      (h9 holen).imp fun k hk => ⟨hk.1, hk.2⟩⟩

theorem spiDlen_bounds (w : List Nat) (pos : Nat) (s : SpiSt) (hlt : pos < w.length)
    (hp : s.p.length ≤ 508) (holen : s.olen < maxOpLen) :
    1 ≤ spiDlen w pos s ∧ spiDlen w pos s ≤ w.length - pos ∧
    s.p.length + spiDlen w pos s ≤ 509 ∧ s.olen + spiDlen w pos s ≤ 31750 := by
  rw [maxOpLen_eq] at holen
  unfold spiDlen
  simp only [maxDataLen, maxOpLen]
  split_ifs <;> omega

theorem spiStep_inv (w : List Nat) (pos : Nat) (s : SpiSt)
    (hinv : SpiInv w pos s) (hlt : pos < w.length) :
    pos < (spiStep w pos s).1 ∧ (spiStep w pos s).1 ≤ w.length ∧
    SpiInv w (spiStep w pos s).1 (spiStep w pos s).2 := by
  obtain ⟨inv1, inv2, inv3, inv4, inv5, inv6, inv7, inv8, inv9, inv10⟩ := hinv
  obtain ⟨hf_ev, hf_sent, hf_cd, hf_olen, hf_p2, hf_p508, hf_cd0, hf_op, hf_k⟩ :=
    spiHeader_facts w pos s inv3 inv4 inv5 inv6 inv9
  rw [show spiStep w pos s = (pos + spiDlen w pos (spiHeader w pos s),
      spiOpAdvance (spiDlen w pos (spiHeader w pos s))
        (spiMaybeFlush (spiAppendChunk w pos (spiDlen w pos (spiHeader w pos s))
          (spiHeader w pos s)))) from rfl]
  set s1 := spiHeader w pos s with hs1
  have holt : s1.olen < maxOpLen := by
    rw [hf_olen]
    rcases Nat.eq_zero_or_pos s.olen with h | h
    · rw [h, maxOpLen_eq]
      omega
    · exact (inv4 (by omega)).2.2
  obtain ⟨hd1, hd2, hd3, hd4⟩ := spiDlen_bounds w pos s1 hlt hf_p508 holt
  set dlen := spiDlen w pos s1 with hdl
  set s2 := spiAppendChunk w pos dlen s1 with hs2
  have hs2p : s2.p.length = s1.p.length + dlen := by
    rw [hs2]
    unfold spiAppendChunk
    simp only [List.length_append, List.length_take, List.length_drop]
    omega
  have hs2ev : s2.events = s1.events := by rw [hs2]; rfl
  have hs2sent : s2.sent = s1.sent := by rw [hs2]; rfl
  have hs2cd : s2.curData = s1.curData + dlen := by rw [hs2]; rfl
  have hs2olen : s2.olen = s1.olen := by rw [hs2]; rfl
  have hs2cop : s2.curOpStart = s1.curOpStart := by rw [hs2]; rfl
  have hinv2b : rdCount s.events + s.sent = wrCount s.events := inv2
  by_cases hfl : maxDataLen ≤ s2.p.length
  · -- the chunk filled the frame: in-loop flush of the packet
    have h2lt : 2 < s2.p.length := by rw [maxDataLen_eq] at hfl; omega
    have hp509 : s2.p.length = 509 := by rw [maxDataLen_eq] at hfl; omega
    obtain ⟨hfrOk, hfrLen⟩ := setLenHeader_spec s2.p (by omega) (by omega)
    have hs3 : spiMaybeFlush s2 = spiFlush s2 false := by
      unfold spiMaybeFlush
      rw [if_pos hfl]
    rw [hs3, spiFlush_false_spec s2 h2lt]
    have hptake : ((setLenHeader s2.p).take 2).length = 2 := by
      rw [List.length_take, hfrLen]
      omega
    by_cases hbd : s2.olen + dlen = maxOpLen
    · -- impossible: a full 509-byte frame never coincides with the operation cap
      exfalso
      obtain ⟨k, hk, _⟩ := hf_k
      rw [hs2olen, hf_olen, maxOpLen_eq] at hbd
      omega
    · have hadv : spiOpAdvance dlen
          { p := (setLenHeader s2.p).take 2, olen := s2.olen, sent := s2.sent + 1,
            events := s2.events ++ [SpiEv.wr ⟨setLenHeader s2.p, s2.curOpStart, s2.curData⟩],
            curData := 0, curOpStart := false }
          = { p := (setLenHeader s2.p).take 2, olen := s2.olen + dlen, sent := s2.sent + 1,
              events := s2.events ++ [SpiEv.wr ⟨setLenHeader s2.p, s2.curOpStart, s2.curData⟩],
              curData := 0, curOpStart := false } := by
        unfold spiOpAdvance
        dsimp only
        rw [if_neg hbd]
      rw [hadv]
      dsimp only
      refine ⟨by omega, by omega, ?_, ?_, ?_, ?_, ?_, ?_, ?_, ?_, ?_, ?_⟩
      · -- data accounting
        show dataSum (s2.events ++ [SpiEv.wr ⟨setLenHeader s2.p, s2.curOpStart, s2.curData⟩]) + 0
          = pos + dlen
        rw [dataSum_append, dataSum_wr_data]
        show dataSum s2.events + s2.curData + 0 = pos + dlen
        rw [hs2ev, hf_ev, hs2cd, hf_cd]
        omega
      · -- acknowledgement balance
        show rdCount (s2.events ++ [SpiEv.wr _]) + (s2.sent + 1)
          = wrCount (s2.events ++ [SpiEv.wr _])
        rw [rdCount_append, wrCount_append, rdCount_wr_zero, wrCount_wr_one,
          hs2ev, hf_ev, hs2sent, hf_sent]
        omega
      · -- a closed operation: impossible here
        intro h
        exact absurd h (show ¬(s2.olen + dlen = 0) by omega)
      · -- open operation bounds
        intro _
        refine ⟨by rw [hptake], by rw [hptake]; omega, ?_⟩
        show s2.olen + dlen < maxOpLen
        rw [hs2olen, hf_olen, maxOpLen_eq]
        rw [hs2olen, hf_olen, maxOpLen_eq] at hbd
        rw [hf_olen] at hd4
        omega
      · -- a drained buffer carries no data
        intro _
        rfl
      · -- an operation-opening buffer has nothing pending: buffer is closed here
        intro h
        exact (Bool.false_ne_true h).elim
      · -- drain order
        show drainOk (s2.events ++ [SpiEv.wr ⟨setLenHeader s2.p, s2.curOpStart, s2.curData⟩]) 0 = true
        rw [hs2ev, hf_ev]
        refine drainOk_snoc_wr s.events _ s.sent inv7 inv2 ?_
        show s2.curOpStart = true → s.sent = 0
        rw [hs2cop]
        exact hf_op
      · -- frame headers
        show FramesOk (s2.events ++ [SpiEv.wr ⟨setLenHeader s2.p, s2.curOpStart, s2.curData⟩])
        rw [hs2ev, hf_ev]
        exact framesOk_snoc_wr s.events _ inv8 hfrOk
      · -- operation progress ties to buffer length
        intro _
        obtain ⟨k, hk, _⟩ := hf_k
        refine ⟨k + 1, ?_, ?_⟩
        · show s2.olen + dlen + 5 = ((setLenHeader s2.p).take 2).length + 507 * (k + 1)
          rw [hptake, hs2olen, hf_olen]
          omega
        · intro h
          exact (Bool.false_ne_true h).elim
      · -- operation within consumed data
        show s2.olen + dlen ≤ pos + dlen
        rw [hs2olen, hf_olen]
        omega
  · -- no in-loop flush
    have hs3 : spiMaybeFlush s2 = s2 := by
      unfold spiMaybeFlush
      rw [if_neg hfl]
    rw [hs3]
    have hp508b : s2.p.length ≤ 508 := by rw [maxDataLen_eq] at hfl; omega
    have h2lt : 2 < s2.p.length := by omega
    by_cases hbd : s2.olen + dlen = maxOpLen
    · -- operation boundary: finishing flush then reset
      obtain ⟨hfrOk, hfrLen⟩ := setLenHeader_spec s2.p (by omega) (by omega)
      have hadv : spiOpAdvance dlen s2
          = { p := [], olen := 0, sent := 0,
              events := s2.events ++ [SpiEv.wr ⟨setLenHeader s2.p, s2.curOpStart, s2.curData⟩]
                        ++ List.replicate (s2.sent + 1) (SpiEv.rd 5),
              curData := 0, curOpStart := false } := by
        unfold spiOpAdvance
        dsimp only
        rw [if_pos hbd,
          spiFlush_true_spec _ (show 2 < ({ s2 with olen := s2.olen + dlen } : SpiSt).p.length from h2lt)]
      rw [hadv]
      dsimp only
      refine ⟨by omega, by omega, ?_, ?_, ?_, ?_, ?_, ?_, ?_, ?_, ?_, ?_⟩
      · -- data accounting
        show dataSum (s2.events ++ [SpiEv.wr ⟨setLenHeader s2.p, s2.curOpStart, s2.curData⟩]
              ++ List.replicate (s2.sent + 1) (SpiEv.rd 5)) + 0 = pos + dlen
        rw [dataSum_append, dataSum_append, dataSum_wr_data, dataSum_rds]
        show dataSum s2.events + s2.curData + 0 + 0 = pos + dlen
        rw [hs2ev, hf_ev, hs2cd, hf_cd]
        omega
      · -- acknowledgement balance
        show rdCount (s2.events ++ [SpiEv.wr _] ++ List.replicate (s2.sent + 1) (SpiEv.rd 5)) + 0
          = wrCount (s2.events ++ [SpiEv.wr _] ++ List.replicate (s2.sent + 1) (SpiEv.rd 5))
        rw [rdCount_append, rdCount_append, wrCount_append, wrCount_append,
          rdCount_wr_zero, wrCount_wr_one, rdCount_rds, wrCount_rds,
          hs2ev, hf_ev, hs2sent, hf_sent]
        omega
      · -- a closed operation: clean state
        intro _
        exact ⟨rfl, rfl, rfl, rfl⟩
      · -- open operation: impossible here
        intro h
        exact absurd rfl h
      · intro _
        rfl
      · intro h
        exact (Bool.false_ne_true h).elim
      · -- drain order
        show drainOk (s2.events ++ [SpiEv.wr ⟨setLenHeader s2.p, s2.curOpStart, s2.curData⟩]
              ++ List.replicate (s2.sent + 1) (SpiEv.rd 5)) 0 = true
        rw [hs2ev, hf_ev]
        refine drainOk_snoc_rds _ _ _ ?_
        refine drainOk_snoc_wr s.events _ s.sent inv7 inv2 ?_
        show s2.curOpStart = true → s.sent = 0
        rw [hs2cop]
        exact hf_op
      · -- frame headers
        show FramesOk (s2.events ++ [SpiEv.wr ⟨setLenHeader s2.p, s2.curOpStart, s2.curData⟩]
              ++ List.replicate (s2.sent + 1) (SpiEv.rd 5))
        rw [hs2ev, hf_ev]
        exact framesOk_snoc_rds _ _ _ (framesOk_snoc_wr s.events _ inv8 hfrOk)
      · intro h
        exact absurd rfl h
      · exact Nat.zero_le _
    · -- plain accumulation
      have hadv : spiOpAdvance dlen s2 = { s2 with olen := s2.olen + dlen } := by
        unfold spiOpAdvance
        dsimp only
        rw [if_neg hbd]
      rw [hadv]
      dsimp only
      refine ⟨by omega, by omega, ?_, ?_, ?_, ?_, ?_, ?_, ?_, ?_, ?_, ?_⟩
      · show dataSum s2.events + s2.curData = pos + dlen
        rw [hs2ev, hf_ev, hs2cd, hf_cd]
        omega
      · show rdCount s2.events + s2.sent = wrCount s2.events
        rw [hs2ev, hf_ev, hs2sent, hf_sent]
        exact inv2
      · intro h
        exact absurd h (show ¬(s2.olen + dlen = 0) by omega)
      · intro _
        refine ⟨?_, ?_, ?_⟩
        · show 2 ≤ s2.p.length
          omega
        · show s2.p.length ≤ 508
          omega
        · show s2.olen + dlen < maxOpLen
          rw [hs2olen, hf_olen, maxOpLen_eq]
          rw [hs2olen, hf_olen, maxOpLen_eq] at hbd
          rw [hf_olen] at hd4
          omega
      · intro h
        exact absurd h (show ¬(s2.p.length ≤ 2) by omega)
      · show s2.curOpStart = true → s2.sent = 0
        rw [hs2cop, hs2sent, hf_sent]
        exact hf_op
      · show drainOk s2.events 0 = true
        rw [hs2ev, hf_ev]
        exact inv7
      · show FramesOk s2.events
        rw [hs2ev, hf_ev]
        exact inv8
      · intro _
        obtain ⟨k, hk, hkc⟩ := hf_k
        refine ⟨k, ?_, ?_⟩
        · show s2.olen + dlen + 5 = s2.p.length + 507 * k
          rw [hs2olen, hf_olen]
          omega
        · show s2.curOpStart = true → k = 0
          rw [hs2cop]
          exact hkc
      · show s2.olen + dlen ≤ pos + dlen
        rw [hs2olen, hf_olen]
        omega

theorem spiInv_init (w : List Nat) : SpiInv w 0 spiInit := by
  refine ⟨rfl, rfl, fun _ => ⟨rfl, rfl, rfl, rfl⟩, fun h => absurd rfl h, fun _ => rfl,
    fun h => (Bool.false_ne_true h).elim, rfl, framesOk_nil, fun h => absurd rfl h,
    Nat.le_refl 0⟩

theorem spiLoop_inv (w : List Nat) :
    ∀ (fuel pos : Nat) (s : SpiSt), SpiInv w pos s → pos ≤ w.length →
      w.length - pos ≤ fuel →
      (spiLoop w fuel pos s).1 = w.length ∧
      SpiInv w w.length (spiLoop w fuel pos s).2 := by
  intro fuel
  induction fuel with
  | zero =>
    intro pos s hinv hle hfuel
    have hp : pos = w.length := by omega
    subst hp
    exact ⟨rfl, hinv⟩
  | succ n ih =>
    intro pos s hinv hle hfuel
    by_cases h : pos < w.length
    · obtain ⟨h1, h2, h3⟩ := spiStep_inv w pos s hinv h
      simp only [spiLoop, if_pos h]
      exact ih (spiStep w pos s).1 (spiStep w pos s).2 h3 h2 (by omega)
    · have hp : pos = w.length := by omega
      subst hp
      simp only [spiLoop, if_neg h]
      exact ⟨trivial, hinv⟩

/-- The master facts of a write-only SPI transfer under an error-free
    all-acknowledging device: the recorded packets carry exactly the caller
    data, acknowledgement reads balance packets minus the still-pending
    ones, pending acknowledgements remain only when the transfer ends right
    after an in-loop packet flush, the events are drained in order, and
    every emitted frame has an exact length header. -/
theorem spiRun_ok_facts (w : List Nat) :
    dataSum (spiEvents w) = w.length ∧
    rdCount (spiEvents w) + spiPending w = wrCount (spiEvents w) ∧
    (spiPending w = 0 ∨ (w ≠ [] ∧ spiFinalBufLen w = 2)) ∧
    drainOk (spiEvents w) 0 = true ∧
    FramesOk (spiEvents w) := by
  obtain ⟨hpos, hinv⟩ :=
    spiLoop_inv w (w.length + 1) 0 spiInit (spiInv_init w) (Nat.zero_le _) (by omega)
  obtain ⟨inv1, inv2, inv3, inv4, inv5, inv6, inv7, inv8, inv9, inv10⟩ := hinv
  have hev : spiEvents w = (spiFlush (spiLoop w (w.length + 1) 0 spiInit).2 true).events := rfl
  have hpend : spiPending w = (spiFlush (spiLoop w (w.length + 1) 0 spiInit).2 true).sent := rfl
  have hbuf : spiFinalBufLen w
      = (spiFlush (spiLoop w (w.length + 1) 0 spiInit).2 true).p.length := rfl
  set sF := (spiLoop w (w.length + 1) 0 spiInit).2 with hsF
  by_cases hp : sF.p.length ≤ 2
  · rw [hev, hpend, hbuf, spiFlush_noop sF true hp]
    have hcd : sF.curData = 0 := inv5 hp
    refine ⟨by omega, inv2, ?_, inv7, inv8⟩
    by_cases holen : sF.olen = 0
    · obtain ⟨-, -, -, hsent⟩ := inv3 holen
      exact Or.inl hsent
    · obtain ⟨hl2, -, -⟩ := inv4 holen
      have hw : w ≠ [] := by
        have := inv10
        intro hnil
        rw [hnil] at this
        simp at this
        exact holen this
      have hplen : sF.p.length = 2 := by omega
      exact Or.inr ⟨hw, hplen⟩
  · have h2lt : 2 < sF.p.length := by omega
    have holen : sF.olen ≠ 0 := by
      intro h0
      obtain ⟨hnil, -, -, -⟩ := inv3 h0
      rw [hnil] at h2lt
      simp at h2lt
    obtain ⟨-, hp508, -⟩ := inv4 holen
    obtain ⟨hfrOk, -⟩ := setLenHeader_spec sF.p (by omega) (by omega)
    rw [hev, hpend, hbuf, spiFlush_true_spec sF h2lt]
    refine ⟨?_, ?_, Or.inl rfl, ?_, ?_⟩
    · show dataSum (sF.events ++ [SpiEv.wr ⟨setLenHeader sF.p, sF.curOpStart, sF.curData⟩]
          ++ List.replicate (sF.sent + 1) (SpiEv.rd 5)) = w.length
      rw [dataSum_append, dataSum_append, dataSum_wr_data, dataSum_rds]
      show dataSum sF.events + sF.curData + 0 = w.length
      omega
    · show rdCount (sF.events ++ [SpiEv.wr _] ++ List.replicate (sF.sent + 1) (SpiEv.rd 5)) + 0
        = wrCount (sF.events ++ [SpiEv.wr _] ++ List.replicate (sF.sent + 1) (SpiEv.rd 5))
      rw [rdCount_append, rdCount_append, wrCount_append, wrCount_append,
        rdCount_wr_zero, wrCount_wr_one, rdCount_rds, wrCount_rds]
      omega
    · show drainOk (sF.events ++ [SpiEv.wr ⟨setLenHeader sF.p, sF.curOpStart, sF.curData⟩]
          ++ List.replicate (sF.sent + 1) (SpiEv.rd 5)) 0 = true
      refine drainOk_snoc_rds _ _ _ ?_
      exact drainOk_snoc_wr sF.events _ sF.sent inv7 inv2 inv6
    · show FramesOk (sF.events ++ [SpiEv.wr ⟨setLenHeader sF.p, sF.curOpStart, sF.curData⟩]
          ++ List.replicate (sF.sent + 1) (SpiEv.rd 5))
      exact framesOk_snoc_rds _ _ _ (framesOk_snoc_wr sF.events _ inv8 hfrOk)

/-- C2 amended: for every write buffer `w` (in particular all lengths up to
    200000), IO.SPI(w, nil) under an error-free transport emits packets whose
    data payloads sum exactly to `len(w)`, and the number of 5-byte
    acknowledgement reads equals the number of packets sent minus the
    packets still pending at return; the pending count is zero — so
    acknowledgement reads equal packets — unless the transfer ends exactly
    at an in-loop packet flush (the final buffer left holding only its
    2-byte length slot, possible only for non-empty `w`, e.g. `len(w) = 504`),
    in which case the finishing flush finds nothing to send and the last
    operation's acknowledgements are never read.  Acknowledgements are
    drained, in send order, before each operation-opening packet is sent. -/
theorem spi_transfer_accounting (w : List Nat) :
    spiDataTotal w = w.length ∧
    spiAcks w + spiPending w = spiPackets w ∧
    (spiPending w = 0 ∨ (w ≠ [] ∧ spiFinalBufLen w = 2)) ∧
    drainOk (spiEvents w) 0 = true := by
  obtain ⟨h1, h2, h3, h4, -⟩ := spiRun_ok_facts w
  exact ⟨h1, h2, h3, h4⟩

/-! ## I2C loop invariant machinery -/

theorem respSum_snoc (fl : List I2CFlush) (rec : I2CFlush) :
    ((fl ++ [rec]).map flushConsumed).sum
      = (fl.map flushConsumed).sum + flushConsumed rec := by
  rw [List.map_append, List.sum_append]
  simp

theorem flushConsumed_mk (fr : List Nat) (tw tr : Int) (h : Bool) (del : Int)
    (hpos : 0 < tw + tr) :
    flushConsumed ⟨fr, tw, tr, h, 2 + (if h then tw + tr + 1 else tw + tr), del⟩
      = tw + tr + (if h then 1 else 0) := by
  cases h <;> simp [flushConsumed] <;> omega

theorem flushConsumed_zero (fr : List Nat) (tw tr : Int) (h : Bool) :
    flushConsumed ⟨fr, tw, tr, h, 0, 0⟩ = 0 := by
  simp [flushConsumed]

theorem flushRecOk_deliver (fr : List Nat) (tw tr : Int) (h : Bool)
    (hpos : 0 < tw + tr) (htr : 0 < tr) :
    FlushRecOk ⟨fr, tw, tr, h, 2 + (if h then tw + tr + 1 else tw + tr), tr⟩ := by
  constructor
  · show 2 + (if h then tw + tr + 1 else tw + tr)
      = if 0 < tw + tr then 2 + tw + tr + (if h then 1 else 0) else 0
    rw [if_pos hpos]
    cases h <;> simp <;> omega
  · show tr = if 0 < tr then tr else 0
    rw [if_pos htr]

theorem flushRecOk_nodeliver (fr : List Nat) (tw tr : Int) (h : Bool)
    (hpos : 0 < tw + tr) (htr : ¬ 0 < tr) :
    FlushRecOk ⟨fr, tw, tr, h, 2 + (if h then tw + tr + 1 else tw + tr), 0⟩ := by
  constructor
  · show 2 + (if h then tw + tr + 1 else tw + tr)
      = if 0 < tw + tr then 2 + tw + tr + (if h then 1 else 0) else 0
    rw [if_pos hpos]
    cases h <;> simp <;> omega
  · show (0 : Int) = if 0 < tr then tr else 0
    rw [if_neg htr]

theorem flushRecOk_empty (fr : List Nat) (tw tr : Int) (h : Bool)
    (hpos : ¬ 0 < tw + tr) (hw : 0 ≤ tw) :
    FlushRecOk ⟨fr, tw, tr, h, 0, 0⟩ := by
  constructor
  · show (0 : Int) = if 0 < tw + tr then 2 + tw + tr + (if h then 1 else 0) else 0
    rw [if_neg hpos]
  · show (0 : Int) = if 0 < tr then tr else 0
    rw [if_neg (by omega)]

theorem recsOk_snoc (fl : List I2CFlush) (rec : I2CFlush)
    (hall : ∀ f ∈ fl, FlushRecOk f ∧ frameOk f.frame)
    (hrec : FlushRecOk rec ∧ frameOk rec.frame) :
    ∀ f ∈ fl ++ [rec], FlushRecOk f ∧ frameOk f.frame := by
  intro f hf
  rcases List.mem_append.mp hf with h1 | h2
  · exact hall f h1
  · rw [List.mem_singleton] at h2
    rw [h2]
    exact hrec

/-- The effect of an I2C frame flush under nonnegative counters and a
    read-request flag implying pending read bytes: the buffer empties, all
    pending confirmations are consumed (their count moving into the
    response total), pending read bytes are delivered, and the appended
    flush record is well formed with an exact frame header. -/
theorem i2cFlush_facts (s : I2CSt)
    (hp3 : 1 ≤ s.p.length) (hp509 : s.p.length ≤ 509)
    (hw : 0 ≤ s.toWrite) (hr : 0 ≤ s.toRead)
    (hhr : s.hasRead = true → 0 < s.toRead)
    (hrec : I2CRecsOk s) :
    (i2cFlush s).p = [] ∧
    (i2cFlush s).toWrite = 0 ∧ (i2cFlush s).toRead = 0 ∧ (i2cFlush s).hasRead = false ∧
    i2cRespTotal (i2cFlush s) = i2cRespTotal s + i2cPend s ∧
    (i2cFlush s).rpos = s.rpos + s.toRead ∧
    I2CRecsOk (i2cFlush s) ∧
    (i2cFlush s).wprims = s.wprims := by
  have hfr := setLenHeader_spec (s.p ++ [0x00])
    (by rw [List.length_append]; simp; omega)
    (by rw [List.length_append]; simp; omega)
  unfold i2cFlush
  by_cases hc : 0 < s.toWrite + s.toRead
  · rw [if_pos hc]
    by_cases htr : 0 < s.toRead
    · have hh2 : s.hasRead = false → (if s.hasRead then (1 : Int) else 0) = 0 := by
        intro h
        rw [h]
        rfl
      rw [if_pos htr]
      refine ⟨rfl, rfl, rfl, rfl, ?_, rfl, ?_, rfl⟩
      · show ((s.flushes ++ [_]).map flushConsumed).sum = i2cRespTotal s + i2cPend s
        rw [respSum_snoc, flushConsumed_mk _ _ _ _ _ hc]
        rfl
      · exact recsOk_snoc s.flushes _ hrec ⟨flushRecOk_deliver _ _ _ _ hc htr, hfr.1⟩
    · have hhf : s.hasRead = false := by
        cases hhh : s.hasRead
        · rfl
        · exact absurd (hhr hhh) htr
      rw [if_neg htr]
      refine ⟨rfl, rfl, ?_, ?_, ?_, ?_, ?_, rfl⟩
      · show s.toRead = 0
        omega
      · exact hhf
      · show ((s.flushes ++ [_]).map flushConsumed).sum = i2cRespTotal s + i2cPend s
        rw [respSum_snoc, flushConsumed_mk _ _ _ _ _ hc]
        rfl
      · show s.rpos = s.rpos + s.toRead
        omega
      · exact recsOk_snoc s.flushes _ hrec ⟨flushRecOk_nodeliver _ _ _ _ hc htr, hfr.1⟩
  · rw [if_neg hc]
    have htw0 : s.toWrite = 0 := by omega
    have htr0 : s.toRead = 0 := by omega
    have hhf : s.hasRead = false := by
      cases hhh : s.hasRead
      · rfl
      · have := hhr hhh
        omega
    refine ⟨rfl, htw0, htr0, hhf, ?_, ?_, ?_, rfl⟩
    · show ((s.flushes ++ [_]).map flushConsumed).sum = i2cRespTotal s + i2cPend s
      rw [respSum_snoc, flushConsumed_zero]
      show i2cRespTotal s + 0 = i2cRespTotal s + i2cPend s
      unfold i2cPend
      rw [hhf]
      simp
      omega
    · show s.rpos = s.rpos + s.toRead
      omega
    · exact recsOk_snoc s.flushes _ hrec ⟨flushRecOk_empty _ _ _ _ hc hw, hfr.1⟩

theorem maxPacketLen_eq : maxPacketLen = 512 := rfl

/-- The effect of packing primitive bytes into the I2C assembly buffer:
    the buffer stays within the frame cap, the response/pending totals and
    the delivery totals are conserved, records stay well formed, and the
    counters either survive untouched (no capacity flush) or are all
    consumed (capacity flush, buffer reopened with the packed bytes). -/
theorem i2cPack_facts (s : I2CSt) (elems : List Nat)
    (hlen : elems.length ≤ 506)
    (hp509 : s.p.length ≤ 509)
    (hw : 0 ≤ s.toWrite) (hr : 0 ≤ s.toRead)
    (hhr : s.hasRead = true → 0 < s.toRead)
    (hrec : I2CRecsOk s) :
    (i2cPack s elems).p.length ≤ 509 ∧
    i2cRespTotal (i2cPack s elems) + i2cPend (i2cPack s elems)
      = i2cRespTotal s + i2cPend s ∧
    (i2cPack s elems).rpos + (i2cPack s elems).toRead = s.rpos + s.toRead ∧
    I2CRecsOk (i2cPack s elems) ∧
    (i2cPack s elems).wprims = s.wprims ∧
    0 ≤ (i2cPack s elems).toWrite ∧ 0 ≤ (i2cPack s elems).toRead ∧
    ((i2cPack s elems).hasRead = true → 0 < (i2cPack s elems).toRead) ∧
    (((i2cPack s elems).toWrite = s.toWrite ∧ (i2cPack s elems).toRead = s.toRead ∧
      (i2cPack s elems).hasRead = s.hasRead ∧ (i2cPack s elems).rpos = s.rpos ∧
      i2cRespTotal (i2cPack s elems) = i2cRespTotal s ∧
      ((i2cPack s elems).p.length = s.p.length + elems.length ∨
        (s.p.length = 0 ∧ (i2cPack s elems).p.length = 3 + elems.length)))
     ∨ ((i2cPack s elems).toWrite = 0 ∧ (i2cPack s elems).toRead = 0 ∧
        (i2cPack s elems).hasRead = false ∧
        (i2cPack s elems).p.length = 3 + elems.length)) := by
  by_cases hfl : maxPacketLen - 2 ≤ s.p.length + elems.length
  · have hp3 : 1 ≤ s.p.length := by
      rw [maxPacketLen_eq] at hfl
      omega
    obtain ⟨ha, hb1, hb2, hb3, hb4, hb5, hb6, hb7⟩ :=
      i2cFlush_facts s hp3 hp509 hw hr hhr hrec
    have h0 : (i2cFlush s).p.length = 0 := by rw [ha]; rfl
    have hpack : i2cPack s elems = { i2cFlush s with p := [0x00, 0x00, 0xaa] ++ elems } := by
      unfold i2cPack
      rw [if_pos hfl]
      show ({ i2cFlush s with
          p := if (i2cFlush s).p.length = 0 then ([0x00, 0x00, 0xaa] : List Nat) ++ elems
               else (i2cFlush s).p ++ elems } : I2CSt) = _
      rw [if_pos h0]
    rw [hpack]
    have hpend0 : i2cPend { i2cFlush s with p := [0x00, 0x00, 0xaa] ++ elems } = 0 := by
      show (i2cFlush s).toWrite + (i2cFlush s).toRead
          + (if (i2cFlush s).hasRead then (1 : Int) else 0) = 0
      rw [hb1, hb2, hb3]
      rfl
    refine ⟨?_, ?_, ?_, hb6, hb7, ?_, ?_, ?_, Or.inr ⟨?_, ?_, ?_, ?_⟩⟩
    · show ([0x00, 0x00, 0xaa] ++ elems).length ≤ 509
      rw [List.length_append]
      simp only [List.length_cons, List.length_nil]
      omega
    · show i2cRespTotal (i2cFlush s) + i2cPend { i2cFlush s with p := [0x00, 0x00, 0xaa] ++ elems }
        = i2cRespTotal s + i2cPend s
      rw [hpend0, hb4]
      omega
    · show (i2cFlush s).rpos + (i2cFlush s).toRead = s.rpos + s.toRead
      rw [hb5, hb2]
      omega
    · show 0 ≤ (i2cFlush s).toWrite
      rw [hb1]
    · show 0 ≤ (i2cFlush s).toRead
      rw [hb2]
    · show (i2cFlush s).hasRead = true → 0 < (i2cFlush s).toRead
      rw [hb3]
      intro h
      exact (Bool.false_ne_true h).elim
    · exact hb1
    · exact hb2
    · exact hb3
    · show ([0x00, 0x00, 0xaa] ++ elems).length = 3 + elems.length
      rw [List.length_append]
      rfl
  · have hpack : i2cPack s elems
        = { s with p := if s.p.length = 0 then ([0x00, 0x00, 0xaa] : List Nat) ++ elems
                        else s.p ++ elems } := by
      unfold i2cPack
      rw [if_neg hfl]
    rw [hpack]
    rw [maxPacketLen_eq] at hfl
    by_cases hp0 : s.p.length = 0
    · rw [if_pos hp0]
      refine ⟨?_, rfl, rfl, hrec, rfl, hw, hr, hhr,
        Or.inl ⟨rfl, rfl, rfl, rfl, rfl, Or.inr ⟨hp0, ?_⟩⟩⟩
      · show ([0x00, 0x00, 0xaa] ++ elems).length ≤ 509
        rw [List.length_append]
        simp only [List.length_cons, List.length_nil]
        omega
      · show ([0x00, 0x00, 0xaa] ++ elems).length = 3 + elems.length
        rw [List.length_append]
        rfl
    · rw [if_neg hp0]
      refine ⟨?_, rfl, rfl, hrec, rfl, hw, hr, hhr,
        Or.inl ⟨rfl, rfl, rfl, rfl, rfl, Or.inl ?_⟩⟩
      · show (s.p ++ elems).length ≤ 509
        rw [List.length_append]
        omega
      · show (s.p ++ elems).length = s.p.length + elems.length
        rw [List.length_append]

/-- Closing a write primitive: pack `elems` and add `dl` to the pending
    write counter, under the write-phase state shape (no read state, buffer
    at least four bytes beyond the pending writes). -/
theorem i2cWClose_facts (s : I2CSt) (elems : List Nat) (dl : Nat)
    (hlen : elems.length ≤ 506) (hdl : (dl : Int) + 1 ≤ (elems.length : Int))
    (hp509 : s.p.length ≤ 509) (hw4 : s.toWrite + 4 ≤ (s.p.length : Int))
    (hw : 0 ≤ s.toWrite) (h3 : s.toRead = 0) (h4 : s.hasRead = false) (h5 : s.rpos = 0)
    (hrec : I2CRecsOk s) :
    i2cRespTotal { i2cPack s elems with
        toWrite := (i2cPack s elems).toWrite + dl,
        wprims := (i2cPack s elems).wprims + 1 }
      + (i2cPack s elems).toWrite + dl
      = i2cRespTotal s + s.toWrite + dl ∧
    (i2cPack s elems).toRead = 0 ∧
    (i2cPack s elems).hasRead = false ∧
    (i2cPack s elems).rpos = 0 ∧
    (i2cPack s elems).toWrite + dl + 4 ≤ ((i2cPack s elems).p.length : Int) ∧
    (i2cPack s elems).p.length ≤ 509 ∧
    0 ≤ (i2cPack s elems).toWrite + (dl : Int) ∧
    I2CRecsOk { i2cPack s elems with
        toWrite := (i2cPack s elems).toWrite + dl,
        wprims := (i2cPack s elems).wprims + 1 } := by
  obtain ⟨ha, hb, hc, hd, -, hf, hg, -, hdisj⟩ :=
    i2cPack_facts s elems hlen hp509 hw (by rw [h3]) (by rw [h4]; intro h; exact absurd h (by decide)) hrec
  have htr0 : (i2cPack s elems).toRead = 0 := by
    rcases hdisj with ⟨-, h2, -⟩ | ⟨-, h2, -⟩
    · rw [h2, h3]
    · exact h2
  have hhf : (i2cPack s elems).hasRead = false := by
    rcases hdisj with ⟨-, -, h2, -⟩ | ⟨-, -, h2, -⟩
    · rw [h2, h4]
    · exact h2
  have hrp0 : (i2cPack s elems).rpos = 0 := by
    rw [htr0, h5, h3] at hc
    omega
  have hresp : i2cRespTotal (i2cPack s elems) + (i2cPack s elems).toWrite
      = i2cRespTotal s + s.toWrite := by
    unfold i2cPend at hb
    rw [htr0, hhf, h3, h4] at hb
    rw [if_neg (show ¬(false = true) from by decide)] at hb
    omega
  have hw4' : (i2cPack s elems).toWrite + dl + 4 ≤ ((i2cPack s elems).p.length : Int) := by
    rcases hdisj with ⟨h1, -, -, -, -, hp1 | ⟨hp0, hp1⟩⟩ | ⟨h1, -, -, hp1⟩
    · rw [h1, hp1]
      push_cast
      omega
    · rw [hp0] at hw4
      omega
    · rw [h1, hp1]
      push_cast
      omega
  have hrt : i2cRespTotal { i2cPack s elems with
      toWrite := (i2cPack s elems).toWrite + dl,
      wprims := (i2cPack s elems).wprims + 1 } = i2cRespTotal (i2cPack s elems) := rfl
  refine ⟨?_, htr0, hhf, hrp0, hw4', ha, by omega, ?_⟩
  · rw [hrt]
    omega
  · exact hd

/-- The effect of `i2cWFinish` on a state satisfying the write-phase shape:
    position and retained slice, and the accounting increment of one packed
    primitive of `d.length - 1` payload bytes. -/
theorem i2cWFinish_facts (pos : Nat) (d : List Nat) (s : I2CSt)
    (hpos : 0 < pos) (hd2 : 2 ≤ d.length) (hdlen : d.length ≤ 506)
    (hp509 : s.p.length ≤ 509) (hw4 : s.toWrite + 4 ≤ (s.p.length : Int))
    (hw : 0 ≤ s.toWrite) (h3 : s.toRead = 0) (h4 : s.hasRead = false) (h5 : s.rpos = 0)
    (hrec : I2CRecsOk s) :
    (i2cWFinish pos d s).1 = pos ∧
    (i2cWFinish pos d s).2.1.length = 1 ∧
    i2cRespTotal (i2cWFinish pos d s).2.2 + (i2cWFinish pos d s).2.2.toWrite
      = i2cRespTotal s + s.toWrite + ((d.length : Int) - 1) ∧
    (i2cWFinish pos d s).2.2.toRead = 0 ∧
    (i2cWFinish pos d s).2.2.hasRead = false ∧
    (i2cWFinish pos d s).2.2.rpos = 0 ∧
    (i2cWFinish pos d s).2.2.toWrite + 4 ≤ ((i2cWFinish pos d s).2.2.p.length : Int) ∧
    (i2cWFinish pos d s).2.2.p.length ≤ 509 ∧
    0 ≤ (i2cWFinish pos d s).2.2.toWrite ∧
    I2CRecsOk (i2cWFinish pos d s).2.2 := by
  have hne : pos ≠ 0 := by omega
  have hstep : i2cWFinish pos d s
      = (pos, [0x80 ||| ((d.length - 1) % 256)],
         { i2cPack s (d.set 0 (0x80 ||| ((d.length - 1) % 256))) with
           toWrite := (i2cPack s (d.set 0 (0x80 ||| ((d.length - 1) % 256)))).toWrite
             + ((d.length - 1 : Nat) : Int),
           wprims := (i2cPack s (d.set 0 (0x80 ||| ((d.length - 1) % 256)))).wprims + 1 }) := by
    unfold i2cWFinish
    rw [if_neg hne]
  have hel : (d.set 0 (0x80 ||| ((d.length - 1) % 256))).length = d.length := by simp
  obtain ⟨c1, c2, c3, c4, c5, c6, c7, c8⟩ :=
    i2cWClose_facts s (d.set 0 (0x80 ||| ((d.length - 1) % 256))) (d.length - 1)
      (by rw [hel]; omega) (by rw [hel]; omega)
      hp509 hw4 hw h3 h4 h5 hrec
  rw [hstep]
  refine ⟨rfl, rfl, ?_, c2, c3, c4, ?_, c6, c7, c8⟩
  · show i2cRespTotal _ + ((i2cPack s (d.set 0 (0x80 ||| ((d.length - 1) % 256)))).toWrite
        + ((d.length - 1 : Nat) : Int)) = _
    rw [← add_assoc]
    rw [c1]
    omega
  · show (i2cPack s (d.set 0 (0x80 ||| ((d.length - 1) % 256)))).toWrite
        + ((d.length - 1 : Nat) : Int) + 4 ≤ _
    exact c5

/-- One step of the I2C write-primitive loop preserves the write-phase
    invariant and advances the position by one to sixty-three bytes. -/
theorem i2cWStep_inv (addr : Nat) (w : List Nat) (pos : Nat) (d : List Nat) (s : I2CSt)
    (hW : WInv w pos d s) (hlt : pos < w.length) :
    pos < (i2cWStep addr w pos d s).1 ∧
    WInv w (i2cWStep addr w pos d s).1 (i2cWStep addr w pos d s).2.1
      (i2cWStep addr w pos d s).2.2 := by
  obtain ⟨hd1, h2, h3, h4, h5, h6, h7, h8, h9, h10⟩ := hW
  by_cases hp0 : pos = 0
  · subst hp0
    have hstep : i2cWStep addr w 0 d s
        = i2cWFinish (0 + (if min (w.length - 0) 63 = 63 then 62 else min (w.length - 0) 63))
            (d ++ [(addr * 2) % 256]
              ++ (w.drop 0).take (if min (w.length - 0) 63 = 63 then 62 else min (w.length - 0) 63))
            s := by
      unfold i2cWStep
      rw [if_pos rfl]
    set dlen := if min (w.length - 0) 63 = 63 then 62 else min (w.length - 0) 63 with hdlen
    have hdb : 1 ≤ dlen ∧ dlen ≤ 62 ∧ dlen ≤ w.length := by
      rw [hdlen]
      by_cases h63 : min (w.length - 0) 63 = 63
      · rw [if_pos h63]
        omega
      · rw [if_neg h63]
        omega
    have hd2len : (d ++ [(addr * 2) % 256] ++ (w.drop 0).take dlen).length = 2 + dlen := by
      simp only [List.length_append, List.length_take, List.length_drop, List.length_cons,
        List.length_nil, hd1]
      omega
    obtain ⟨f1, f2, f3, f4, f5, f6, f7, f8, f9, f10⟩ :=
      i2cWFinish_facts (0 + dlen) (d ++ [(addr * 2) % 256] ++ (w.drop 0).take dlen) s
        (by omega) (by rw [hd2len]; omega) (by rw [hd2len]; omega)
        h7 h6 h8 h3 h4 h5 h9
    rw [hstep]
    rw [f1]
    refine ⟨by omega, f2, ?_, f4, f5, f6, f7, f8, f9, f10, by omega⟩
    rw [f3, hd2len]
    rw [if_pos rfl] at h2
    rw [if_neg (show ¬(0 + dlen = 0) from by omega)]
    push_cast
    omega
  · have hstep : i2cWStep addr w pos d s
        = i2cWFinish (pos + min (w.length - pos) 63)
            (d ++ (w.drop pos).take (min (w.length - pos) 63)) s := by
      unfold i2cWStep
      rw [if_neg hp0]
    set dlen := min (w.length - pos) 63 with hdlen
    have hdb : 1 ≤ dlen ∧ dlen ≤ 63 ∧ pos + dlen ≤ w.length := by
      rw [hdlen]
      omega
    have hd2len : (d ++ (w.drop pos).take dlen).length = 1 + dlen := by
      simp only [List.length_append, List.length_take, List.length_drop, hd1]
      omega
    obtain ⟨f1, f2, f3, f4, f5, f6, f7, f8, f9, f10⟩ :=
      i2cWFinish_facts (pos + dlen) (d ++ (w.drop pos).take dlen) s
        (by omega) (by rw [hd2len]; omega) (by rw [hd2len]; omega)
        h7 h6 h8 h3 h4 h5 h9
    rw [hstep]
    rw [f1]
    refine ⟨by omega, f2, ?_, f4, f5, f6, f7, f8, f9, f10, by omega⟩
    rw [f3, hd2len]
    rw [if_neg hp0] at h2
    rw [if_neg (show ¬(pos + dlen = 0) from by omega)]
    push_cast
    omega

/-- The fuel-indexed write-primitive loop carried to completion under the
    write-phase invariant. -/
theorem i2cWLoop_inv (addr : Nat) (w : List Nat) :
    ∀ (fuel pos : Nat) (d : List Nat) (s : I2CSt),
      WInv w pos d s → w.length ≤ pos + fuel →
      (i2cWLoop addr w fuel pos d s).1 = w.length ∧
      WInv w w.length (i2cWLoop addr w fuel pos d s).2.1
        (i2cWLoop addr w fuel pos d s).2.2 := by
  intro fuel
  induction fuel with
  | zero =>
    intro pos d s hW hfu
    have hpe : pos = w.length := by
      obtain ⟨-, -, -, -, -, -, -, -, -, h10⟩ := hW
      omega
    unfold i2cWLoop
    subst hpe
    exact ⟨rfl, hW⟩
  | succ n ih =>
    intro pos d s hW hfu
    by_cases hlt : pos < w.length
    · have hstep : i2cWLoop addr w (n + 1) pos d s
          = i2cWLoop addr w n (i2cWStep addr w pos d s).1 (i2cWStep addr w pos d s).2.1
              (i2cWStep addr w pos d s).2.2 := by
        show (if pos < w.length then _ else _) = _
        rw [if_pos hlt]
      obtain ⟨hadv, hW2⟩ := i2cWStep_inv addr w pos d s hW hlt
      rw [hstep]
      exact ih _ _ _ hW2 (by omega)
    · have hpe : pos = w.length := by
        obtain ⟨-, -, -, -, -, -, -, -, -, h10⟩ := hW
        omega
      unfold i2cWLoop
      rw [if_neg hlt]
      subst hpe
      exact ⟨rfl, hW⟩

/-- The write phase of `IO.I2C` from the initial state: its response
    accounting and the read-phase entry shape. -/
theorem i2cWritePhase_facts (addr : Nat) (w : List Nat) :
    i2cRespTotal (i2cWritePhase addr w i2cInit) + (i2cWritePhase addr w i2cInit).toWrite
      = (if w.length = 0 then 0 else (w.length : Int) + 1) ∧
    (i2cWritePhase addr w i2cInit).toRead = 0 ∧
    (i2cWritePhase addr w i2cInit).hasRead = false ∧
    (i2cWritePhase addr w i2cInit).rpos = 0 ∧
    0 ≤ (i2cWritePhase addr w i2cInit).toWrite ∧
    (i2cWritePhase addr w i2cInit).toWrite ≤ 505 ∧
    (i2cWritePhase addr w i2cInit).p.length ≤ 509 ∧
    ((i2cWritePhase addr w i2cInit).p.length = 0 ∨ 3 ≤ (i2cWritePhase addr w i2cInit).p.length) ∧
    ((i2cWritePhase addr w i2cInit).toWrite = 0 ∨
      (i2cWritePhase addr w i2cInit).toWrite + 4 ≤ ((i2cWritePhase addr w i2cInit).p.length : Int)) ∧
    I2CRecsOk (i2cWritePhase addr w i2cInit) := by
  by_cases hw0 : w.length = 0
  · have hrun : i2cWritePhase addr w i2cInit = i2cInit := by
      unfold i2cWritePhase
      rw [if_neg (by omega)]
    rw [hrun, if_pos hw0]
    refine ⟨rfl, rfl, rfl, rfl, le_refl _, by decide, by decide, Or.inl rfl, Or.inl rfl, ?_⟩
    intro f hf
    exact absurd hf (List.not_mem_nil f)
  · have hpk : i2cPack i2cInit [0x74] = { i2cInit with p := [0x00, 0x00, 0xaa, 0x74] } := rfl
    have hrun : i2cWritePhase addr w i2cInit
        = (i2cWLoop addr w (w.length + 1) 0 [0x80] { i2cInit with p := [0x00, 0x00, 0xaa, 0x74] }).2.2 := by
      unfold i2cWritePhase
      rw [if_pos hw0, hpk]
    have hW0 : WInv w 0 [0x80] { i2cInit with p := [0x00, 0x00, 0xaa, 0x74] } := by
      refine ⟨rfl, ?_, rfl, rfl, rfl, by decide, by decide, le_refl _, ?_, by omega⟩
      · rw [if_pos rfl]
        rfl
      · intro f hf
        exact absurd hf (List.not_mem_nil f)
    obtain ⟨-, hWf⟩ := i2cWLoop_inv addr w (w.length + 1) 0 [0x80]
      { i2cInit with p := [0x00, 0x00, 0xaa, 0x74] } hW0 (by omega)
    obtain ⟨-, g2, g3, g4, g5, g6, g7, g8, g9, -⟩ := hWf
    rw [hrun, if_neg hw0]
    rw [if_neg hw0] at g2
    refine ⟨g2, g3, g4, g5, g8, by omega, g7, Or.inr (by omega), Or.inr g6, g9⟩
/-- The READ-primitive append extends the primitive slice by at most one
    byte and never shrinks it. -/
theorem i2cRPrim_length (d : List Nat) (maxRLen : Nat) (dlen : Int) :
    d.length ≤ (i2cRPrim d maxRLen dlen).length ∧
    (i2cRPrim d maxRLen dlen).length ≤ d.length + 1 := by
  unfold i2cRPrim
  by_cases h1 : maxRLen = 63
  · rw [if_pos h1]
    simp
  · rw [if_neg h1]
    by_cases h2 : 1 < dlen
    · rw [if_pos h2]
      simp
    · rw [if_neg h2]
      omega

/-- The core of a read-phase frame send: update the pending read counter,
    pack the primitive slice, flush.  The buffer empties, counters clear,
    and the response/delivery totals advance by the whole pending amount. -/
theorem i2cSendCore_facts (s : I2CSt) (trNew : Int) (e : List Nat)
    (helen : e.length ≤ 506) (he1 : 1 ≤ e.length)
    (hp509 : s.p.length ≤ 509) (hw : 0 ≤ s.toWrite) (hr : 0 ≤ trNew)
    (hhr : s.hasRead = true → 0 < trNew)
    (hrec : I2CRecsOk s) :
    (i2cFlush (i2cPack { s with toRead := trNew } e)).p = [] ∧
    (i2cFlush (i2cPack { s with toRead := trNew } e)).toWrite = 0 ∧
    (i2cFlush (i2cPack { s with toRead := trNew } e)).toRead = 0 ∧
    (i2cFlush (i2cPack { s with toRead := trNew } e)).hasRead = false ∧
    i2cRespTotal (i2cFlush (i2cPack { s with toRead := trNew } e))
      = i2cRespTotal s + s.toWrite + trNew + (if s.hasRead then 1 else 0) ∧
    (i2cFlush (i2cPack { s with toRead := trNew } e)).rpos = s.rpos + trNew ∧
    I2CRecsOk (i2cFlush (i2cPack { s with toRead := trNew } e)) := by
  obtain ⟨a1, a2, a3, a4, -, a6, a7, a8, a9⟩ :=
    i2cPack_facts { s with toRead := trNew } e helen
      (show s.p.length ≤ 509 from hp509) (show 0 ≤ s.toWrite from hw)
      (show 0 ≤ trNew from hr) (show s.hasRead = true → 0 < trNew from hhr)
      (show I2CRecsOk s from hrec)
  have hpp1 : 1 ≤ (i2cPack { s with toRead := trNew } e).p.length := by
    rcases a9 with ⟨-, -, -, -, -, hp | ⟨-, hp⟩⟩ | ⟨-, -, -, hp⟩ <;> rw [hp]
    · show 1 ≤ s.p.length + e.length
      omega
    · omega
    · omega
  obtain ⟨b1, b2, b3, b4, b5, b6, b7, -⟩ :=
    i2cFlush_facts (i2cPack { s with toRead := trNew } e) hpp1 a1 a6 a7 a8 a4
  have hpend : i2cPend { s with toRead := trNew }
      = s.toWrite + trNew + (if s.hasRead then 1 else 0) := rfl
  have hresp : i2cRespTotal ({ s with toRead := trNew } : I2CSt) = i2cRespTotal s := rfl
  refine ⟨b1, b2, b3, b4, ?_, ?_, b7⟩
  · rw [b5, a2, hpend, hresp]
    omega
  · rw [b6, a3]
/-- One step of the I2C read-primitive loop preserves the read-phase
    invariant and consumes at least one requested byte. -/
theorem i2cRStep_inv (wtot : Int) (r0 : Nat) (rlen : Int) (d : List Nat) (maxRLen : Nat)
    (s : I2CSt) (hR : RInv wtot r0 rlen d maxRLen s) (hpos : 0 < rlen) :
    (i2cRStep rlen d maxRLen s).1 < rlen ∧
    RInv wtot r0 (i2cRStep rlen d maxRLen s).1 (i2cRStep rlen d maxRLen s).2.1
      (i2cRStep rlen d maxRLen s).2.2.1 (i2cRStep rlen d maxRLen s).2.2.2 := by
  obtain ⟨r1, r2, r3, r4, r5, r6, r7, r8, r9, r10, r11, r12, r13, r15, r14⟩ := hR
  have r13n : 63 * (d.length : Int) ≤ 251 + s.toRead := by
    rw [if_neg (show ¬(rlen ≤ 0) from by omega)] at r13
    omega
  have hmx : (if maxRLen = 64 then 63 else maxRLen) = 63 := by
    rcases r15 with h63 | ⟨h64, -⟩
    · rw [h63, if_neg (by decide)]
    · rw [h64, if_pos rfl]
  by_cases hsend : (maxPacketLen : Int) ≤ 2 + s.toWrite + s.toRead + min rlen 63
  · have hs5 := hsend
    rw [maxPacketLen_eq] at hs5
    by_cases hh : s.hasRead = true
    · have hstep : i2cRStep rlen d maxRLen s
          = (rlen - (min rlen 63 - (2 + s.toWrite + s.toRead + min rlen 63 - (maxPacketLen : Int))),
             [], (if maxRLen = 64 then 63 else maxRLen),
             i2cFlush (i2cPack
               { s with toRead := s.toRead - 1
                   + (min rlen 63 - (2 + s.toWrite + s.toRead + min rlen 63 - (maxPacketLen : Int))) }
               (i2cRPrim d maxRLen
                 (min rlen 63 - (2 + s.toWrite + s.toRead + min rlen 63 - (maxPacketLen : Int)))))) := by
        unfold i2cRStep
        rw [if_pos hsend]
        dsimp only
        rw [if_pos hh]
      rw [hstep]
      dsimp only
      set dv : Int := min rlen 63 - (2 + s.toWrite + s.toRead + min rlen 63 - (maxPacketLen : Int)) with hdv
      have hdval : dv = 510 - s.toWrite - s.toRead := by
        rw [hdv, maxPacketLen_eq]
        push_cast
        omega
      have hdm : dv ≤ min rlen 63 := by omega
      obtain ⟨hel, heu⟩ := i2cRPrim_length d maxRLen dv
      have he1 : 1 ≤ (i2cRPrim d maxRLen dv).length := by
        rcases r15 with h63 | ⟨h64, hd3⟩
        · unfold i2cRPrim
          rw [if_pos h63]
          simp
        · omega
      have helen : (i2cRPrim d maxRLen dv).length ≤ 506 := by omega
      obtain ⟨c1, c2, c3, c4, c5, c6, c7⟩ :=
        i2cSendCore_facts s (s.toRead - 1 + dv) (i2cRPrim d maxRLen dv) helen he1 r10 r3
          (by omega) (fun _ => by omega) r14
      have hite1 : (if s.hasRead then (1 : Int) else 0) = 1 := by
        rw [hh, if_pos rfl]
      have hite0 : (if s.hasRead then (0 : Int) else 1) = 0 := by
        rw [hh, if_pos rfl]
      unfold i2cPend at r7
      rw [hite1] at c5 r7
      rw [hite0] at r7 r8
      refine ⟨by omega, by omega, by omega, by omega, by omega, by omega, by omega,
        ?_, ?_, ?_, ?_, ?_, Or.inl c2, ?_, ?_, c7⟩
      · have hpend : i2cPend (i2cFlush (i2cPack { s with toRead := s.toRead - 1 + dv }
            (i2cRPrim d maxRLen dv))) = 0 := by
          unfold i2cPend
          rw [c2, c3, c4]
          decide
        rw [hpend, c5, c4, if_neg (show ¬(false = true) from by decide)]
        omega
      · rw [c3, c4, c6, if_neg (show ¬(false = true) from by decide)]
        omega
      · intro hcon
        rw [c4] at hcon
        exact absurd hcon (by decide)
      · rw [c1]
        decide
      · rw [c1]
        exact Or.inl rfl
      · have hz : ((([] : List Nat)).length : Int) = 0 := rfl
        rw [hz, c3]
        by_cases hfin : rlen - dv ≤ 0
        · rw [if_pos hfin]
          omega
        · rw [if_neg hfin]
          omega
      · exact Or.inl hmx
    · have hh2 : s.hasRead = false := by
        cases hx : s.hasRead
        · rfl
        · exact absurd hx hh
      have hstep : i2cRStep rlen d maxRLen s
          = (rlen - (min rlen 63 - (2 + s.toWrite + s.toRead + min rlen 63 - (maxPacketLen : Int))),
             [], (if maxRLen = 64 then 63 else maxRLen),
             i2cFlush (i2cPack
               { s with toRead := s.toRead
                   + (min rlen 63 - (2 + s.toWrite + s.toRead + min rlen 63 - (maxPacketLen : Int))) }
               (i2cRPrim d maxRLen
                 (min rlen 63 - (2 + s.toWrite + s.toRead + min rlen 63 - (maxPacketLen : Int)))))) := by
        unfold i2cRStep
        rw [if_pos hsend]
        dsimp only
        rw [if_neg hh]
      rw [hstep]
      dsimp only
      set dv : Int := min rlen 63 - (2 + s.toWrite + s.toRead + min rlen 63 - (maxPacketLen : Int)) with hdv
      have hdval : dv = 510 - s.toWrite - s.toRead := by
        rw [hdv, maxPacketLen_eq]
        push_cast
        omega
      have hdm : dv ≤ min rlen 63 := by omega
      obtain ⟨hel, heu⟩ := i2cRPrim_length d maxRLen dv
      have he1 : 1 ≤ (i2cRPrim d maxRLen dv).length := by
        rcases r15 with h63 | ⟨h64, hd3⟩
        · unfold i2cRPrim
          rw [if_pos h63]
          simp
        · omega
      have helen : (i2cRPrim d maxRLen dv).length ≤ 506 := by omega
      obtain ⟨c1, c2, c3, c4, c5, c6, c7⟩ :=
        i2cSendCore_facts s (s.toRead + dv) (i2cRPrim d maxRLen dv) helen he1 r10 r3
          (by omega) (fun hcon => absurd hcon hh) r14
      have hite1 : (if s.hasRead then (1 : Int) else 0) = 0 := by
        rw [hh2, if_neg (show ¬(false = true) from by decide)]
      have hite0 : (if s.hasRead then (0 : Int) else 1) = 1 := by
        rw [hh2, if_neg (show ¬(false = true) from by decide)]
      unfold i2cPend at r7
      rw [hite1] at c5 r7
      rw [hite0] at r7 r8
      refine ⟨by omega, by omega, by omega, by omega, by omega, by omega, by omega,
        ?_, ?_, ?_, ?_, ?_, Or.inl c2, ?_, ?_, c7⟩
      · have hpend : i2cPend (i2cFlush (i2cPack { s with toRead := s.toRead + dv }
            (i2cRPrim d maxRLen dv))) = 0 := by
          unfold i2cPend
          rw [c2, c3, c4]
          decide
        rw [hpend, c5, c4, if_neg (show ¬(false = true) from by decide)]
        omega
      · rw [c3, c4, c6, if_neg (show ¬(false = true) from by decide)]
        omega
      · intro hcon
        rw [c4] at hcon
        exact absurd hcon (by decide)
      · rw [c1]
        decide
      · rw [c1]
        exact Or.inl rfl
      · have hz : ((([] : List Nat)).length : Int) = 0 := rfl
        rw [hz, c3]
        by_cases hfin : rlen - dv ≤ 0
        · rw [if_pos hfin]
          omega
        · rw [if_neg hfin]
          omega
      · exact Or.inl hmx
  · have hns : 2 + s.toWrite + s.toRead + min rlen 63 < 512 := by
      have := lt_of_not_le hsend
      rw [maxPacketLen_eq] at this
      push_cast at this
      omega
    have hm1 : 1 ≤ min rlen 63 := by omega
    have hstep : i2cRStep rlen d maxRLen s
        = (rlen - min rlen 63, i2cRPrim d maxRLen (min rlen 63),
           (if maxRLen = 64 then 63 else maxRLen),
           { s with toRead := s.toRead + min rlen 63 }) := by
      unfold i2cRStep
      rw [if_neg hsend]
    obtain ⟨hel, heu⟩ := i2cRPrim_length d maxRLen (min rlen 63)
    rw [hstep]
    refine ⟨by omega, by omega, by omega,
      show 0 ≤ s.toWrite from r3, show s.toWrite ≤ 505 from r4,
      show 0 ≤ s.toRead + min rlen 63 from by omega,
      show s.toWrite + (s.toRead + min rlen 63) ≤ 509 from by omega,
      ?_, ?_, show s.hasRead = true → s.rpos = 0 from r9,
      show s.p.length ≤ 509 from r10, r11, r12, ?_, ?_, r14⟩
    · show i2cRespTotal s + (s.toWrite + (s.toRead + min rlen 63)
          + (if s.hasRead then 1 else 0))
        = wtot + 1 + ((r0 : Int) - (rlen - min rlen 63)) - (if s.hasRead then 0 else 1)
      unfold i2cPend at r7
      by_cases hb : s.hasRead = true
      · rw [hb] at r7 ⊢
        rw [if_pos rfl, if_pos rfl] at r7
        rw [if_pos rfl, if_pos rfl]
        omega
      · have hb2 : s.hasRead = false := by
          cases hx : s.hasRead
          · rfl
          · exact absurd hx hb
        rw [hb2] at r7 ⊢
        rw [if_neg (show ¬(false = true) from by decide),
            if_neg (show ¬(false = true) from by decide)] at r7
        rw [if_neg (show ¬(false = true) from by decide),
            if_neg (show ¬(false = true) from by decide)]
        omega
    · show s.rpos + (s.toRead + min rlen 63)
        = ((r0 : Int) - (rlen - min rlen 63)) - (if s.hasRead then 0 else 1)
      by_cases hb : s.hasRead = true
      · rw [hb] at r8 ⊢
        rw [if_pos rfl] at r8
        rw [if_pos rfl]
        omega
      · have hb2 : s.hasRead = false := by
          cases hx : s.hasRead
          · rfl
          · exact absurd hx hb
        rw [hb2] at r8 ⊢
        rw [if_neg (show ¬(false = true) from by decide)] at r8
        rw [if_neg (show ¬(false = true) from by decide)]
        omega
    · show 63 * ((i2cRPrim d maxRLen (min rlen 63)).length : Int)
        ≤ 251 + (s.toRead + min rlen 63) + (if rlen - min rlen 63 ≤ 0 then 62 else 0)
      by_cases hfin : rlen - min rlen 63 ≤ 0
      · rw [if_pos hfin]
        omega
      · rw [if_neg hfin]
        omega
    · exact Or.inl hmx
/-- The fuel-indexed read-primitive loop carried to completion under the
    read-phase invariant: the requested length is fully consumed. -/
theorem i2cRLoop_inv (wtot : Int) (r0 : Nat) :
    ∀ (fuel : Nat) (rlen : Int) (d : List Nat) (maxRLen : Nat) (s : I2CSt),
      RInv wtot r0 rlen d maxRLen s → rlen.toNat ≤ fuel →
      (i2cRLoop fuel rlen d maxRLen s).1 = 0 ∧
      RInv wtot r0 0 (i2cRLoop fuel rlen d maxRLen s).2.1
        (i2cRLoop fuel rlen d maxRLen s).2.2.1 (i2cRLoop fuel rlen d maxRLen s).2.2.2 := by
  intro fuel
  induction fuel with
  | zero =>
    intro rlen d maxRLen s hR hfu
    have hz : rlen = 0 := by
      obtain ⟨h1, -⟩ := hR
      omega
    unfold i2cRLoop
    subst hz
    exact ⟨rfl, hR⟩
  | succ n ih =>
    intro rlen d maxRLen s hR hfu
    by_cases hlt : 0 < rlen
    · have hstep : i2cRLoop (n + 1) rlen d maxRLen s
          = i2cRLoop n (i2cRStep rlen d maxRLen s).1 (i2cRStep rlen d maxRLen s).2.1
              (i2cRStep rlen d maxRLen s).2.2.1 (i2cRStep rlen d maxRLen s).2.2.2 := by
        show (if 0 < rlen then _ else _) = _
        rw [if_pos hlt]
      obtain ⟨hdec, hR2⟩ := i2cRStep_inv wtot r0 rlen d maxRLen s hR hlt
      have hb : (i2cRStep rlen d maxRLen s).1.toNat ≤ n := by
        obtain ⟨h1, -⟩ := hR2
        omega
      rw [hstep]
      exact ih _ _ _ _ hR2 hb
    · have hz : rlen = 0 := by
        obtain ⟨h1, -⟩ := hR
        omega
      unfold i2cRLoop
      rw [if_neg hlt]
      subst hz
      exact ⟨rfl, hR⟩

/-- The read phase of `IO.I2C` on a non-zero request, from a state in the
    write-phase exit shape: response and delivery accounting, and the shape
    needed by the final STOP pack and flush. -/
theorem i2cReadPhase_facts (addr : Nat) (rlen : Nat) (s : I2CSt) (hrl : rlen ≠ 0)
    (h3 : s.toRead = 0) (h5 : s.rpos = 0)
    (hw0 : 0 ≤ s.toWrite) (hw5 : s.toWrite ≤ 505)
    (hp509 : s.p.length ≤ 509) (hp03 : s.p.length = 0 ∨ 3 ≤ s.p.length)
    (htw4 : s.toWrite = 0 ∨ s.toWrite + 4 ≤ (s.p.length : Int))
    (hrec : I2CRecsOk s) :
    i2cRespTotal (i2cReadPhase addr rlen s) + i2cPend (i2cReadPhase addr rlen s)
      = (i2cRespTotal s + s.toWrite) + 1 + (rlen : Int) ∧
    (i2cReadPhase addr rlen s).rpos + (i2cReadPhase addr rlen s).toRead = (rlen : Int) ∧
    0 ≤ (i2cReadPhase addr rlen s).toWrite ∧ 0 ≤ (i2cReadPhase addr rlen s).toRead ∧
    ((i2cReadPhase addr rlen s).hasRead = true → 0 < (i2cReadPhase addr rlen s).toRead) ∧
    (i2cReadPhase addr rlen s).p.length ≤ 509 ∧
    I2CRecsOk (i2cReadPhase addr rlen s) := by
  have hrp : i2cReadPhase addr rlen s
      = i2cPack
          (if !(i2cRLoop (rlen + 1) rlen [0x74, 0x80 ||| 1, ((addr * 2) % 256) ||| 1] 64
              { s with hasRead := true }).2.2.2.hasRead
           then { (i2cRLoop (rlen + 1) rlen [0x74, 0x80 ||| 1, ((addr * 2) % 256) ||| 1] 64
                    { s with hasRead := true }).2.2.2 with
                  toRead := (i2cRLoop (rlen + 1) rlen [0x74, 0x80 ||| 1, ((addr * 2) % 256) ||| 1] 64
                    { s with hasRead := true }).2.2.2.toRead + 1 }
           else (i2cRLoop (rlen + 1) rlen [0x74, 0x80 ||| 1, ((addr * 2) % 256) ||| 1] 64
                  { s with hasRead := true }).2.2.2)
          ((i2cRLoop (rlen + 1) rlen [0x74, 0x80 ||| 1, ((addr * 2) % 256) ||| 1] 64
              { s with hasRead := true }).2.1 ++ [0xc0]) := by
    unfold i2cReadPhase
    rw [if_pos hrl]
  rw [hrp]
  set t := i2cRLoop (rlen + 1) rlen [0x74, 0x80 ||| 1, ((addr * 2) % 256) ||| 1] 64
    { s with hasRead := true } with ht
  have hR0 : RInv (i2cRespTotal s + s.toWrite) rlen (rlen : Int)
      [0x74, 0x80 ||| 1, ((addr * 2) % 256) ||| 1] 64 { s with hasRead := true } := by
    refine ⟨by omega, le_refl _, hw0, hw5, ?_, ?_, ?_, ?_, ?_, hp509, hp03, htw4, ?_, ?_, hrec⟩
    · show (0 : Int) ≤ s.toRead
      omega
    · show s.toWrite + s.toRead ≤ 509
      omega
    · show i2cRespTotal s + (s.toWrite + s.toRead + (if true then (1 : Int) else 0))
        = i2cRespTotal s + s.toWrite + 1 + ((rlen : Int) - (rlen : Int))
          - (if true then (0 : Int) else 1)
      rw [if_pos rfl, if_pos rfl]
      omega
    · show s.rpos + s.toRead = ((rlen : Int) - (rlen : Int)) - (if true then (0 : Int) else 1)
      rw [if_pos rfl]
      omega
    · intro hcon
      show s.rpos = 0
      exact h5
    · show 63 * (((3 : Nat) : Int)) ≤ 251 + s.toRead + (if (rlen : Int) ≤ 0 then 62 else 0)
      rw [if_neg (show ¬((rlen : Int) ≤ 0) from by omega)]
      omega
    · exact Or.inr ⟨rfl, Nat.le_refl 3⟩
  obtain ⟨-, hRf⟩ := i2cRLoop_inv (i2cRespTotal s + s.toWrite) rlen (rlen + 1) (rlen : Int)
    [0x74, 0x80 ||| 1, ((addr * 2) % 256) ||| 1] 64 { s with hasRead := true } hR0 (by omega)
  rw [← ht] at hRf
  obtain ⟨-, -, q3, q4, q5, q6, q7, q8, q9, q10, q11, q12, q13, -, q14⟩ := hRf
  rw [if_pos (le_refl (0 : Int))] at q13
  have hd13 : (t.2.1.length : Int) ≤ 13 := by omega
  have hdlen : (t.2.1 ++ [0xc0]).length = t.2.1.length + 1 := by
    rw [List.length_append]
    rfl
  by_cases hhb : t.2.2.2.hasRead = true
  · have hcnot : ¬((!t.2.2.2.hasRead) = true) := by
      rw [hhb]
      decide
    rw [if_neg hcnot]
    rw [hhb, if_pos rfl] at q7
    rw [hhb, if_pos rfl] at q8
    have htr1 : 1 ≤ t.2.2.2.toRead := by
      have hq9 := q9 hhb
      omega
    obtain ⟨a1, a2, a3, a4, -, a6, a7, a8, -⟩ :=
      i2cPack_facts t.2.2.2 (t.2.1 ++ [0xc0]) (by rw [hdlen]; omega) q10 q3 q5
        (fun _ => by omega) q14
    refine ⟨?_, ?_, a6, a7, a8, a1, a4⟩
    · rw [a2]
      omega
    · rw [a3]
      omega
  · have hhb2 : t.2.2.2.hasRead = false := by
      cases hx : t.2.2.2.hasRead
      · rfl
      · exact absurd hx hhb
    have hc : (!t.2.2.2.hasRead) = true := by
      rw [hhb2]
      decide
    rw [if_pos hc]
    rw [hhb2, if_neg (show ¬(false = true) from by decide)] at q7
    rw [hhb2, if_neg (show ¬(false = true) from by decide)] at q8
    obtain ⟨a1, a2, a3, a4, -, a6, a7, a8, -⟩ :=
      i2cPack_facts { t.2.2.2 with toRead := t.2.2.2.toRead + 1 } (t.2.1 ++ [0xc0])
        (by rw [hdlen]; omega) q10 q3
        (show (0 : Int) ≤ t.2.2.2.toRead + 1 from by omega)
        (fun hcon => by
          have h2 := (show t.2.2.2.hasRead = true from hcon)
          rw [hhb2] at h2
          exact absurd h2 (by decide))
        q14
    have hz1 : (if t.2.2.2.hasRead then (1 : Int) else 0) = 0 := by
      rw [hhb2]
      decide
    have hr2 : i2cRespTotal ({ t.2.2.2 with toRead := t.2.2.2.toRead + 1 } : I2CSt)
        = i2cRespTotal t.2.2.2 := rfl
    have hp2 : i2cPend ({ t.2.2.2 with toRead := t.2.2.2.toRead + 1 } : I2CSt)
        = t.2.2.2.toWrite + (t.2.2.2.toRead + 1) + (if t.2.2.2.hasRead then 1 else 0) := rfl
    have hp1 : i2cPend t.2.2.2
        = t.2.2.2.toWrite + t.2.2.2.toRead + (if t.2.2.2.hasRead then 1 else 0) := rfl
    rw [hp1, hz1] at q7
    refine ⟨?_, ?_, a6, a7, a8, a1, a4⟩
    · rw [a2, hr2, hp2, hz1]
      omega
    · rw [a3]
      show t.2.2.2.rpos + (t.2.2.2.toRead + 1) = (rlen : Int)
      omega
/-- Claim C1 (amended): for every `IO.I2C(addr, w, r)` under an error-free
    transport, every flush's response read is 2 header bytes plus the
    pending written BYTES (address byte included, not WRITE primitives),
    plus 1 iff the read-request acknowledgement is pending, plus the read
    bytes delivered in that flush; in total the transaction consumes
    `(len(w)+1 if w nonempty else 0) + (1 + len(r) if r nonempty else 0)`
    response bytes (headers excluded) and delivers exactly `len(r)` read
    bytes. -/
theorem i2c_response_accounting (addr : Nat) (w r : List Nat) :
    (∀ f ∈ (i2cRun addr w r).flushes, FlushRecOk f) ∧
    i2cRespTotal (i2cRun addr w r)
      = (if w.length = 0 then 0 else (w.length : Int) + 1)
        + (if r.length = 0 then 0 else 1 + (r.length : Int)) ∧
    (i2cRun addr w r).rpos = (r.length : Int) := by
  have hrun : i2cRun addr w r
      = i2cFlush (i2cPack (i2cReadPhase addr r.length (i2cWritePhase addr w i2cInit))
          [0x75]) := rfl
  obtain ⟨w1, w2, w3, w4, w5, w6, w7, w8, w9, w10⟩ := i2cWritePhase_facts addr w
  by_cases hr0 : r.length = 0
  · have hnr : i2cReadPhase addr r.length (i2cWritePhase addr w i2cInit)
        = i2cWritePhase addr w i2cInit := by
      unfold i2cReadPhase
      rw [if_neg (show ¬(r.length ≠ 0) from fun h => h hr0)]
    obtain ⟨a1, a2, a3, a4, -, a6, a7, a8, a9⟩ :=
      i2cPack_facts (i2cWritePhase addr w i2cInit) [0x75] (by decide) w7 w5
        (by omega)
        (fun hcon => by
          rw [w3] at hcon
          exact absurd hcon (by decide))
        w10
    have h75 : ([0x75] : List Nat).length = 1 := rfl
    have hpp1 : 1 ≤ (i2cPack (i2cWritePhase addr w i2cInit) [0x75]).p.length := by
      rcases a9 with ⟨-, -, -, -, -, hp | ⟨-, hp⟩⟩ | ⟨-, -, -, hp⟩ <;> rw [hp] <;> omega
    obtain ⟨b1, b2, b3, b4, b5, b6, b7, -⟩ :=
      i2cFlush_facts (i2cPack (i2cWritePhase addr w i2cInit) [0x75]) hpp1 a1 a6 a7 a8 a4
    rw [hrun, hnr]
    refine ⟨fun f hf => (b7 f hf).1, ?_, ?_⟩
    · rw [b5, a2]
      have hpw : i2cPend (i2cWritePhase addr w i2cInit)
          = (i2cWritePhase addr w i2cInit).toWrite + (i2cWritePhase addr w i2cInit).toRead
            + (if (i2cWritePhase addr w i2cInit).hasRead then 1 else 0) := rfl
      have hzw : (if (i2cWritePhase addr w i2cInit).hasRead then (1 : Int) else 0) = 0 := by
        rw [w3]
        decide
      rw [hpw, hzw, if_pos hr0, ← w1]
      omega
    · rw [b6, a3]
      omega
  · obtain ⟨p1, p2, p3, p4, p5, p6, p7⟩ :=
      i2cReadPhase_facts addr r.length (i2cWritePhase addr w i2cInit) hr0
        w2 w4 w5 w6 w7 w8 w9 w10
    obtain ⟨a1, a2, a3, a4, -, a6, a7, a8, a9⟩ :=
      i2cPack_facts (i2cReadPhase addr r.length (i2cWritePhase addr w i2cInit)) [0x75]
        (by decide) p6 p3 p4 p5 p7
    have h75 : ([0x75] : List Nat).length = 1 := rfl
    have hpp1 : 1 ≤ (i2cPack (i2cReadPhase addr r.length (i2cWritePhase addr w i2cInit))
        [0x75]).p.length := by
      rcases a9 with ⟨-, -, -, -, -, hp | ⟨-, hp⟩⟩ | ⟨-, -, -, hp⟩ <;> rw [hp] <;> omega
    obtain ⟨b1, b2, b3, b4, b5, b6, b7, -⟩ :=
      i2cFlush_facts (i2cPack (i2cReadPhase addr r.length (i2cWritePhase addr w i2cInit))
        [0x75]) hpp1 a1 a6 a7 a8 a4
    rw [hrun]
    refine ⟨fun f hf => (b7 f hf).1, ?_, ?_⟩
    · rw [b5, a2, p1, ← w1, if_neg hr0]
      omega
    · rw [b6, a3, p2]
/-- Every frame emitted by the UART write chunking loop has an exact
    little-endian length header, provided chunks are capped at 510 bytes. -/
theorem uartWriteGo_frames (b : List Nat) (plen : Nat) (hpl : plen ≤ 510) :
    ∀ (fuel pos : Nat), ∀ f ∈ uartWriteGo b plen fuel pos, frameOk f := by
  intro fuel
  induction fuel with
  | zero =>
    intro pos f hf
    rw [show uartWriteGo b plen 0 pos = [] from rfl] at hf
    exact absurd hf (List.not_mem_nil f)
  | succ n ih =>
    intro pos f hf
    by_cases hlt : pos < b.length
    · have hstep : uartWriteGo b plen (n + 1) pos
          = ([min (b.length - pos) plen % 256, min (b.length - pos) plen / 256 % 256]
              ++ (b.drop pos).take (min (b.length - pos) plen)) ::
            uartWriteGo b plen n (pos + min (b.length - pos) plen) := by
        show (if pos < b.length then _ else _) = _
        rw [if_pos hlt]
      rw [hstep] at hf
      rcases List.mem_cons.mp hf with hA | hB
      · have hlen : ((b.drop pos).take (min (b.length - pos) plen)).length
            = min (b.length - pos) plen := by
          rw [List.length_take, List.length_drop]
          omega
        have hfrm : ([min (b.length - pos) plen % 256, min (b.length - pos) plen / 256 % 256]
              ++ (b.drop pos).take (min (b.length - pos) plen))
            = min (b.length - pos) plen % 256 :: min (b.length - pos) plen / 256 % 256
              :: (b.drop pos).take (min (b.length - pos) plen) := rfl
        rw [hA, hfrm]
        constructor
        · simp only [List.length_cons]
          omega
        · simp only [List.getD_cons_zero, List.getD_cons_succ, List.length_cons, hlen]
          omega
      · exact ih (pos + min (b.length - pos) plen) f hB
    · have hstep : uartWriteGo b plen (n + 1) pos = [] := by
        show (if pos < b.length then _ else _) = _
        rw [if_neg hlt]
      rw [hstep] at hf
      exact absurd hf (List.not_mem_nil f)

/-- Every flush record of a full I2C transaction is well formed (per-flush
    response identity and exact frame header). -/
theorem i2cRun_recsOk (addr : Nat) (w r : List Nat) : I2CRecsOk (i2cRun addr w r) := by
  have hrun : i2cRun addr w r
      = i2cFlush (i2cPack (i2cReadPhase addr r.length (i2cWritePhase addr w i2cInit))
          [0x75]) := rfl
  obtain ⟨w1, w2, w3, w4, w5, w6, w7, w8, w9, w10⟩ := i2cWritePhase_facts addr w
  by_cases hr0 : r.length = 0
  · have hnr : i2cReadPhase addr r.length (i2cWritePhase addr w i2cInit)
        = i2cWritePhase addr w i2cInit := by
      unfold i2cReadPhase
      rw [if_neg (show ¬(r.length ≠ 0) from fun h => h hr0)]
    obtain ⟨a1, a2, a3, a4, -, a6, a7, a8, a9⟩ :=
      i2cPack_facts (i2cWritePhase addr w i2cInit) [0x75] (by decide) w7 w5
        (by omega)
        (fun hcon => by
          rw [w3] at hcon
          exact absurd hcon (by decide))
        w10
    have h75 : ([0x75] : List Nat).length = 1 := rfl
    have hpp1 : 1 ≤ (i2cPack (i2cWritePhase addr w i2cInit) [0x75]).p.length := by
      rcases a9 with ⟨-, -, -, -, -, hp | ⟨-, hp⟩⟩ | ⟨-, -, -, hp⟩ <;> rw [hp] <;> omega
    obtain ⟨-, -, -, -, -, -, b7, -⟩ :=
      i2cFlush_facts (i2cPack (i2cWritePhase addr w i2cInit) [0x75]) hpp1 a1 a6 a7 a8 a4
    rw [hrun, hnr]
    exact b7
  · obtain ⟨p1, p2, p3, p4, p5, p6, p7⟩ :=
      i2cReadPhase_facts addr r.length (i2cWritePhase addr w i2cInit) hr0
        w2 w4 w5 w6 w7 w8 w9 w10
    obtain ⟨a1, a2, a3, a4, -, a6, a7, a8, a9⟩ :=
      i2cPack_facts (i2cReadPhase addr r.length (i2cWritePhase addr w i2cInit)) [0x75]
        (by decide) p6 p3 p4 p5 p7
    have h75 : ([0x75] : List Nat).length = 1 := rfl
    have hpp1 : 1 ≤ (i2cPack (i2cReadPhase addr r.length (i2cWritePhase addr w i2cInit))
        [0x75]).p.length := by
      rcases a9 with ⟨-, -, -, -, -, hp | ⟨-, hp⟩⟩ | ⟨-, -, -, hp⟩ <;> rw [hp] <;> omega
    obtain ⟨-, -, -, -, -, -, b7, -⟩ :=
      i2cFlush_facts (i2cPack (i2cReadPhase addr r.length (i2cWritePhase addr w i2cInit))
        [0x75]) hpp1 a1 a6 a7 a8 a4
    rw [hrun]
    exact b7

/-- Claim C10: every length-prefixed frame emitted by `UART.Write`, by a
    write-only `IO.SPI` transfer, and by `IO.I2C` carries a little-endian
    2-byte header equal to the exact number of payload bytes that follow it
    in that frame. -/
theorem frame_headers_exact (b wSpi : List Nat) (addr : Nat) (w r : List Nat) :
    (∀ f ∈ uartWriteFrames b, frameOk f) ∧
    FramesOk (spiEvents wSpi) ∧
    (∀ fr ∈ i2cFrames (i2cRun addr w r), frameOk fr) := by
  refine ⟨?_, ?_, ?_⟩
  · intro f hf
    exact uartWriteGo_frames b (min b.length 510) (by omega) (b.length + 1) 0 f hf
  · obtain ⟨-, -, -, -, h5⟩ := spiRun_ok_facts wSpi
    exact h5
  · intro fr hfr
    have hfr2 : fr ∈ (i2cRun addr w r).flushes.map (fun f => f.frame) := hfr
    obtain ⟨g, hg, hfeq⟩ := List.mem_map.mp hfr2
    rw [← hfeq]
    exact (i2cRun_recsOk addr w r g hg).2
end CH347
